import Mathlib

/-!
# Ox front end (`ext/ox/ox.c`)

A shallow embedding of the option model (`get_def_opts`, `set_def_opts`, the
option merges of `load` and of `dump`), of the buffer handling of the loaders
(`to_obj`, `to_gen`, `load_str`, `load_file`) and of the error locator
(`_ox_raise_error`), followed by the properties established about them.

Conventions of the embedding.

* A Ruby `VALUE` is an `RVal`; a Ruby `Hash` is an association list without a
  default value or default proc, so `rb_hash_aref` and `rb_hash_lookup` both
  answer `Qnil` for a missing key.
* `rb_raise` does not return: a function that may raise yields an `Except`,
  and the statements after the raise are not executed.
* The process-wide `ox_default_options` is passed in and handed back
  explicitly, also when the call raises.
* Bytes are natural numbers, `0` is the NUL byte and `10` the newline.
-/

namespace Ox

/-! ## Ruby values -/

/-- Symbols interned by `Init_ox` (ox.c 736-756); `other` is any other symbol. -/
inductive Sym
  | auto_define | auto | circular | convert_special | effort | generic | indent
  | limited | mode | object | opt_format | optimized | encoding | strict
  | symbolize_keys | tolerant | trace | with_dtd | with_instructions | with_xml
  | xsd_date
  | other (id : Nat)
  deriving DecidableEq, Repr

/-- Name of a symbol as `rb_id2name` gives it. -/
def Sym.name : Sym → String
  | .auto_define => "auto_define"
  | .auto => "auto"
  | .circular => "circular"
  | .convert_special => "convert_special"
  | .effort => "effort"
  | .generic => "generic"
  | .indent => "indent"
  | .limited => "limited"
  | .mode => "mode"
  | .object => "object"
  | .opt_format => "opt_format"
  | .optimized => "optimized"
  | .encoding => "encoding"
  | .strict => "strict"
  | .symbolize_keys => "symbolize_keys"
  | .tolerant => "tolerant"
  | .trace => "trace"
  | .with_dtd => "with_dtd"
  | .with_instructions => "with_instructions"
  | .with_xml => "with_xml"
  | .xsd_date => "xsd_date"
  | .other _ => "?"

/-- A Ruby value other than a Hash: `nil`, `true`, `false`, a Fixnum, a String
(its bytes, which may include NUL), a Symbol, or some other object. -/
inductive RVal
  | qnil
  | qtrue
  | qfalse
  | fixnum (n : Int)
  | str (bytes : List Nat)
  | sym (s : Sym)
  | obj (id : Nat)
  deriving DecidableEq, Repr

/-- A Ruby Hash with no default: the entries, first match wins. -/
abbrev Hash := List (RVal × RVal)

/-- An argument of a module function: a Hash or another value. -/
inductive Arg
  | hash (h : Hash)
  | val (v : RVal)
  deriving DecidableEq, Repr

/-- Ruby's `rb_hash_aref` on a Hash without default: `Qnil` when the key is missing. -/
def rb_hash_aref (h : Hash) (k : RVal) : RVal := (List.lookup k h).getD .qnil

/-- Ruby's `rb_hash_lookup`: `Qnil` when the key is missing. -/
def rb_hash_lookup (h : Hash) (k : RVal) : RVal := (List.lookup k h).getD .qnil

/-- Exception classes raised by the code of ox.c; `other` is any class the
external parser may raise. -/
inductive ErrClass
  | eArgError | eTypeError | eIOError | eLoadError | eSyntaxError | eNoMemError | eRangeError
  | other (id : Nat)
  deriving DecidableEq, Repr

/-- A raised Ruby exception: its class and message. -/
structure RbErr where
  cls : ErrClass
  msg : String
  deriving DecidableEq, Repr

/-- The exception of a failed `Check_Type(v, t)`. -/
def type_error (expected : String) : RbErr :=
  ⟨.eTypeError, "wrong argument type (expected " ++ expected ++ ")"⟩

/-- Whether an integer is within the range of a C `int` (32 bits). -/
def fits_int (n : Int) : Bool := decide (-2147483648 ≤ n ∧ n ≤ 2147483647)

/-- The exception of Ruby's `rb_out_of_int` (its quoting of the word int is
left out). -/
def out_of_int (n : Int) : RbErr :=
  ⟨.eRangeError,
    "integer " ++ toString n ++ (if n < 0 then " too small" else " too big")
      ++ " to convert to int"⟩

/-- The macro `FIX2INT` of ruby.h on the payload of a Fixnum: the payload as a
C `int`, or a RangeError when it is outside the range of `int` (a Fixnum is as
wide as a `long`; where `long` is as wide as `int` every Fixnum fits). -/
def FIX2INT (n : Int) : Except RbErr Int :=
  if fits_int n then .ok n else .error (out_of_int n)

/-! ## C strings -/

/-- The C string starting at the first byte of `bytes` (which a NUL follows):
the bytes before the first NUL. -/
def c_str (bytes : List Nat) : List Nat := bytes.takeWhile (fun b => b ≠ 0)

/-- C's `strlen` on a character array holding a NUL. -/
def strlen (buf : List Nat) : Nat := (c_str buf).length

/-- C's `strncpy(dst, src, n)`: at most `n` bytes of the C string `src`, padded
with NUL bytes up to `n` bytes; the bytes of `dst` from `n` on stay. -/
def strncpy (dst src : List Nat) (n : Nat) : List Nat :=
  let copied := (c_str src).take n
  copied ++ List.replicate (n - copied.length) 0 ++ dst.drop n

/-- C's `strcpy(dst, src)`: the C string `src` and its terminator; the bytes of
`dst` after the terminator stay. -/
def strcpy (dst src : List Nat) : List Nat :=
  c_str src ++ [0] ++ dst.drop ((c_str src).length + 1)

/-! ## Options (declared in ox.h; field order as in the initializer, ox.c 131-143) -/

/-- Modelled from the spec: the tri-state `YesNo` of ox.h ("each one of
Unset, Yes, No"), whose declaration is not part of ox.c. -/
inductive YesNo
  | NotSet | Yes | No
  deriving DecidableEq, Repr

/-- Modelled from the spec: the `mode` enum of ox.h ("None, ObjectGraph,
GenericTree, Limited"), whose declaration is not part of ox.c. -/
inductive LoadMode
  | NoMode | ObjMode | GenMode | LimMode
  deriving DecidableEq, Repr

/-- Modelled from the spec: the `effort` enum of ox.h ("None, Strict, Tolerant,
AutoDefine"), whose declaration is not part of ox.c. -/
inductive Effort
  | NoEffort | StrictEffort | TolerantEffort | AutoEffort
  deriving DecidableEq, Repr

/-- The record `struct _Options`; `encoding` is the whole character array. -/
structure Options where
  encoding : List Nat
  indent : Int
  trace : Int
  with_dtd : YesNo
  with_xml : YesNo
  with_instruct : YesNo
  circular : YesNo
  xsd_date : YesNo
  mode : LoadMode
  effort : Effort
  sym_keys : YesNo
  deriving DecidableEq, Repr

/-- The initial `ox_default_options` (ox.c 131-143); `encSize` is the declared
length of the `encoding` array, which ox.h fixes. -/
def ox_default_options (encSize : Nat) : Options :=
  { encoding := List.replicate encSize 0
    indent := 2
    trace := 0
    with_dtd := .No
    with_xml := .No
    with_instruct := .No
    circular := .No
    xsd_date := .No
    mode := .NoMode
    effort := .StrictEffort
    sym_keys := .Yes }

/-! ## `set_def_opts` (ox.c 216-290) -/

/-- A run of statements on the process-wide defaults: the defaults as the
statements leave them, and whether they completed or raised. -/
abbrev Step := Options → Options × Except RbErr Unit

/-- Sequencing of statements: the second run starts where the first completed
and is skipped when the first raised. -/
def Step.andThen (s t : Step) : Step := fun d =>
  match s d with
  | (d1, .ok _) => t d1
  | (d1, .error e) => (d1, .error e)

/-- Lines 232-238: the `:encoding` key. -/
def set_def_opts_encoding (h : Hash) : Step := fun d =>
  match rb_hash_aref h (.sym .encoding) with
  | .qnil => ({ d with encoding := d.encoding.set 0 0 }, .ok ())
  | .str s =>
    ({ d with encoding := strncpy d.encoding s (d.encoding.length - 1) }, .ok ())
  | _ => (d, .error (type_error "String"))

/-- Lines 240-244: the `:indent` key. -/
def set_def_opts_indent (h : Hash) : Step := fun d =>
  match rb_hash_aref h (.sym .indent) with
  | .qnil => (d, .ok ())
  | .fixnum n =>
    match FIX2INT n with
    | .ok i => ({ d with indent := i }, .ok ())
    | .error e => (d, .error e)
  | _ => (d, .error (type_error "Fixnum"))

/-- Lines 246-250: the `:trace` key. -/
def set_def_opts_trace (h : Hash) : Step := fun d =>
  match rb_hash_aref h (.sym .trace) with
  | .qnil => (d, .ok ())
  | .fixnum n =>
    match FIX2INT n with
    | .ok i => ({ d with trace := i }, .ok ())
    | .error e => (d, .error e)
  | _ => (d, .error (type_error "Fixnum"))

/-- Lines 252-263: the `:mode` key. -/
def set_def_opts_mode (h : Hash) : Step := fun d =>
  match rb_hash_aref h (.sym .mode) with
  | .qnil => ({ d with mode := .NoMode }, .ok ())
  | .sym .object => ({ d with mode := .ObjMode }, .ok ())
  | .sym .generic => ({ d with mode := .GenMode }, .ok ())
  | .sym .limited => ({ d with mode := .LimMode }, .ok ())
  | _ => (d, .error ⟨.eArgError, ":mode must be :object, :generic, :limited, or nil.\n"⟩)

/-- Lines 265-276: the `:effort` key. -/
def set_def_opts_effort (h : Hash) : Step := fun d =>
  match rb_hash_aref h (.sym .effort) with
  | .qnil => ({ d with effort := .NoEffort }, .ok ())
  | .sym .strict => ({ d with effort := .StrictEffort }, .ok ())
  | .sym .tolerant => ({ d with effort := .TolerantEffort }, .ok ())
  | .sym .auto_define => ({ d with effort := .AutoEffort }, .ok ())
  | _ =>
    (d, .error ⟨.eArgError, ":effort must be :strict, :tolerant, :auto_define, or nil.\n"⟩)

/-- The field a `struct _YesNoOpt` entry points at (its `attr`). -/
inductive YnAttr
  | with_xml | with_dtd | with_instruct | xsd_date | circular | sym_keys
  deriving DecidableEq, Repr

/-- The assignment `*o->attr = v`. -/
def YnAttr.store (a : YnAttr) (v : YesNo) (o : Options) : Options :=
  match a with
  | .with_xml => { o with with_xml := v }
  | .with_dtd => { o with with_dtd := v }
  | .with_instruct => { o with with_instruct := v }
  | .xsd_date => { o with xsd_date := v }
  | .circular => { o with circular := v }
  | .sym_keys => { o with sym_keys := v }

/-- The read `*o->attr`. -/
def YnAttr.load (a : YnAttr) (o : Options) : YesNo :=
  match a with
  | .with_xml => o.with_xml
  | .with_dtd => o.with_dtd
  | .with_instruct => o.with_instruct
  | .xsd_date => o.xsd_date
  | .circular => o.circular
  | .sym_keys => o.sym_keys

/-- The table `ynos` of `set_def_opts` (lines 218-226), without its sentinel. -/
def set_def_opts_ynos : List (Sym × YnAttr) :=
  [ (.with_xml, .with_xml),
    (.with_dtd, .with_dtd),
    (.with_instructions, .with_instruct),
    (.xsd_date, .xsd_date),
    (.circular, .circular),
    (.symbolize_keys, .sym_keys) ]

/-- Lines 277-288: the loop over `ynos`. -/
def set_def_opts_loop (h : Hash) : List (Sym × YnAttr) → Step
  | [] => fun d => (d, .ok ())
  | (s, a) :: rest => fun d =>
    match rb_hash_lookup h (.sym s) with
    | .qnil => set_def_opts_loop h rest (a.store .NotSet d)
    | .qtrue => set_def_opts_loop h rest (a.store .Yes d)
    | .qfalse => set_def_opts_loop h rest (a.store .No d)
    | _ => (d, .error ⟨.eArgError, s.name ++ " must be true or false.\n"⟩)

/-- The body of `set_def_opts` after `Check_Type(opts, T_HASH)`. -/
def set_def_opts_body (h : Hash) : Step :=
  (set_def_opts_encoding h).andThen <|
  (set_def_opts_indent h).andThen <|
  (set_def_opts_trace h).andThen <|
  (set_def_opts_mode h).andThen <|
  (set_def_opts_effort h).andThen <|
  set_def_opts_loop h set_def_opts_ynos

/-- The function `set_def_opts(self, opts)` started on the defaults `d`: the
defaults when control leaves it, and `Qnil` or the exception raised. -/
def set_def_opts (d : Options) (opts : Arg) : Options × Except RbErr RVal :=
  match opts with
  | .val _ => (d, .error (type_error "Hash"))
  | .hash h =>
    match set_def_opts_body h d with
    | (d1, .ok _) => (d1, .ok .qnil)
    | (d1, .error e) => (d1, .error e)

/-! ## The loaders (ox.c 302-504) -/

/-- The stack limit `SMALL_XML` (ox.c 40). -/
def SMALL_XML : Nat := 65536

/-- The four callback sets declared `extern` in ox.c 145-148. -/
inductive Callbacks
  | ox_obj_callbacks | ox_gen_callbacks | ox_limited_callbacks | ox_nomode_callbacks
  deriving DecidableEq, Repr

/-- What a loader does to the outside, in order: `ALLOC_N` and `ALLOCA_N` of
so many bytes, `xfree` of the heap block, a successful `fopen`, `fclose`, and a
call of `ox_parse` with the buffer, the callbacks and the options it is given
(the third argument of `ox_parse` is always 0 and is left out). -/
inductive Event
  | alloc_n (len : Nat)
  | alloca_n (len : Nat)
  | xfree
  | fopen (path : List Nat)
  | fclose
  | ox_parse (xml : List Nat) (cbs : Callbacks) (opts : Options)
  deriving DecidableEq, Repr

/-- The external `ox_parse`: it returns a value or raises. -/
abbrev Parser := List Nat → Callbacks → Options → Except RbErr RVal

/-- A finished call: its events and the value returned or exception raised. -/
structure Run where
  events : List Event
  result : Except RbErr RVal

/-- A fresh block of `len` bytes from `ALLOC_N` or `ALLOCA_N`: its content is
whatever the memory held, `junk i` at offset `i`. -/
def fresh_block (junk : Nat → Nat) (len : Nat) : List Nat := (List.range len).map junk

/-- The allocation of lines 311-315 (and 340-344, 441-445, 487-491): on the
heap when `heap` holds, on the stack otherwise. -/
def alloc_event (heap : Bool) (len : Nat) : Event :=
  if heap then .alloc_n len else .alloca_n len

/-- The release of lines 318-320 (and 347-349, 448-450, 500-502). -/
def free_events (heap : Bool) : List Event := if heap then [.xfree] else []

/-- The function `to_obj(self, ruby_xml)` (ox.c 302-322). -/
def to_obj (ox_parse : Parser) (junk : Nat → Nat) (defaults : Options) (ruby_xml : Arg) : Run :=
  match ruby_xml with
  | .val (.str text) =>
    let len := text.length + 1
    let heap := decide (SMALL_XML < len)
    let xml := strcpy (fresh_block junk len) text
    match ox_parse xml .ox_obj_callbacks defaults with
    | .ok obj =>
      ⟨[alloc_event heap len, .ox_parse xml .ox_obj_callbacks defaults] ++ free_events heap,
        .ok obj⟩
    | .error e =>
      ⟨[alloc_event heap len, .ox_parse xml .ox_obj_callbacks defaults], .error e⟩
  | _ => ⟨[], .error (type_error "String")⟩

/-- The function `to_gen(self, ruby_xml)` (ox.c 331-351). -/
def to_gen (ox_parse : Parser) (junk : Nat → Nat) (defaults : Options) (ruby_xml : Arg) : Run :=
  match ruby_xml with
  | .val (.str text) =>
    let len := text.length + 1
    let heap := decide (SMALL_XML < len)
    let xml := strcpy (fresh_block junk len) text
    match ox_parse xml .ox_gen_callbacks defaults with
    | .ok obj =>
      ⟨[alloc_event heap len, .ox_parse xml .ox_gen_callbacks defaults] ++ free_events heap,
        .ok obj⟩
    | .error e =>
      ⟨[alloc_event heap len, .ox_parse xml .ox_gen_callbacks defaults], .error e⟩
  | _ => ⟨[], .error (type_error "String")⟩

/-- Lines 362-374 of `load`: the `:mode` key. -/
def load_mode (h : Hash) (options : Options) : Except RbErr Options :=
  match rb_hash_lookup h (.sym .mode) with
  | .qnil => .ok options
  | .sym .object => .ok { options with mode := .ObjMode }
  | .sym .optimized => .ok { options with mode := .ObjMode }
  | .sym .generic => .ok { options with mode := .GenMode }
  | .sym .limited => .ok { options with mode := .LimMode }
  | _ => .error ⟨.eArgError, ":mode must be :generic, :object, or :limited.\n"⟩

/-- Lines 375-385 of `load`: the `:effort` key. -/
def load_effort (h : Hash) (options : Options) : Except RbErr Options :=
  match rb_hash_lookup h (.sym .effort) with
  | .qnil => .ok options
  | .sym .auto_define => .ok { options with effort := .AutoEffort }
  | .sym .tolerant => .ok { options with effort := .TolerantEffort }
  | .sym .strict => .ok { options with effort := .StrictEffort }
  | _ => .error ⟨.eArgError, ":effort must be :strict, :tolerant, or :auto_define.\n"⟩

/-- Lines 386-389 of `load`: the `:trace` key. -/
def load_trace (h : Hash) (options : Options) : Except RbErr Options :=
  match rb_hash_lookup h (.sym .trace) with
  | .qnil => .ok options
  | .fixnum n =>
    match FIX2INT n with
    | .ok i => .ok { options with trace := i }
    | .error e => .error e
  | _ => .error (type_error "Fixnum")

/-- Lines 390-392 of `load`: the `:symbolize_keys` key. -/
def load_sym_keys (h : Hash) (options : Options) : Options :=
  match rb_hash_lookup h (.sym .symbolize_keys) with
  | .qnil => options
  | .qfalse => { options with sym_keys := .No }
  | _ => { options with sym_keys := .Yes }

/-- Lines 356-393 of `load`: the local `options`, a copy of the defaults
overlaid with the Hash when exactly one argument is given and it is a Hash. -/
def load_options (defaults : Options) (argv : List Arg) : Except RbErr Options :=
  match argv with
  | [.hash h] =>
    match load_mode h defaults with
    | .error e => .error e
    | .ok o1 =>
      match load_effort h o1 with
      | .error e => .error e
      | .ok o2 =>
        match load_trace h o2 with
        | .error e => .error e
        | .ok o3 => .ok (load_sym_keys h o3)
  | _ => .ok defaults

/-- The function `load(xml, argc, argv, self)` (ox.c 353-412). -/
def load (ox_parse : Parser) (defaults : Options) (xml : List Nat) (argv : List Arg) : Run :=
  match load_options defaults argv with
  | .error e => ⟨[], .error e⟩
  | .ok options =>
    match options.mode with
    | .ObjMode =>
      ⟨[.ox_parse xml .ox_obj_callbacks options], ox_parse xml .ox_obj_callbacks options⟩
    | .GenMode =>
      ⟨[.ox_parse xml .ox_gen_callbacks options], ox_parse xml .ox_gen_callbacks options⟩
    | .LimMode =>
      ⟨[.ox_parse xml .ox_limited_callbacks options],
        ox_parse xml .ox_limited_callbacks options⟩
    | .NoMode =>
      ⟨[.ox_parse xml .ox_nomode_callbacks options],
        ox_parse xml .ox_nomode_callbacks options⟩

/-- The function `load_str(argc, argv, self)` (ox.c 432-452); `argv0` is
`*argv` and `rest` the arguments after it. -/
def load_str (ox_parse : Parser) (junk : Nat → Nat) (defaults : Options)
    (argv0 : Arg) (rest : List Arg) : Run :=
  match argv0 with
  | .val (.str text) =>
    let len := text.length + 1
    let heap := decide (SMALL_XML < len)
    let xml := strcpy (fresh_block junk len) text
    let r := load ox_parse defaults xml rest
    match r.result with
    | .ok obj => ⟨[alloc_event heap len] ++ r.events ++ free_events heap, .ok obj⟩
    | .error e => ⟨[alloc_event heap len] ++ r.events, .error e⟩
  | _ => ⟨[], .error (type_error "String")⟩

/-- An open `FILE`: `size` is what `ftell` answers after the seek to the end,
`avail` the bytes `fread` can deliver from the start of the file. -/
structure CFile where
  size : Nat
  avail : List Nat
  deriving DecidableEq, Repr

/-- The platform's `fopen(path, "r")`: the open file, or the text of
`strerror(errno)`. -/
abbrev Fopen := List Nat → Except String CFile

/-- The text of a byte string, for `%s`. -/
def bytes_text (bytes : List Nat) : String := String.mk (bytes.map Char.ofNat)

/-- The function `load_file(argc, argv, self)` (ox.c 472-504). -/
def load_file (ox_parse : Parser) (fopen : Fopen) (junk : Nat → Nat) (defaults : Options)
    (argv0 : Arg) (rest : List Arg) : Run :=
  match argv0 with
  | .val (.str path) =>
    match fopen (c_str path) with
    | .error errtxt => ⟨[], .error ⟨.eIOError, errtxt ++ "\n"⟩⟩
    | .ok f =>
      let len := f.size
      let heap := decide (SMALL_XML < len)
      let block := fresh_block junk (len + 1)
      let got := f.avail.take len
      if len ≠ got.length then
        ⟨[.fopen (c_str path), alloc_event heap (len + 1), .fclose],
          .error ⟨.eLoadError,
            "Failed to read " ++ toString len ++ " bytes from " ++ bytes_text (c_str path)
              ++ ".\n"⟩⟩
      else
        let xml := (got ++ block.drop got.length).set len 0
        let r := load ox_parse defaults xml rest
        match r.result with
        | .ok obj =>
          ⟨[.fopen (c_str path), alloc_event heap (len + 1), .fclose] ++ r.events
            ++ free_events heap, .ok obj⟩
        | .error e =>
          ⟨[.fopen (c_str path), alloc_event heap (len + 1), .fclose] ++ r.events, .error e⟩
  | _ => ⟨[], .error (type_error "String")⟩

/-! ## The error locator `_ox_raise_error` (ox.c 778-792) -/

/-- The first loop (line 783): from the offset `current` of the cursor it steps
back while the offset is above 0 and the byte under it is not a newline, adding
1 to `col` each step; it answers the offset reached and `col`. -/
def raise_error_col_loop (xml : List Nat) : Nat → Nat → Nat × Nat
  | 0, col => (0, col)
  | current + 1, col =>
    if xml.getD (current + 1) 0 ≠ 10 then raise_error_col_loop xml current (col + 1)
    else (current + 1, col)

/-- The second loop (lines 786-790): it steps back to offset 0, adding 1 to
`xline` for each newline under an offset above 0. -/
def raise_error_line_loop (xml : List Nat) : Nat → Nat → Nat
  | 0, xline => xline
  | current + 1, xline =>
    raise_error_line_loop xml current (if xml.getD (current + 1) 0 = 10 then xline + 1 else xline)

/-- The column `col` that `_ox_raise_error` reports for the cursor at offset
`p` of the buffer `xml`. -/
def raise_error_col (xml : List Nat) (p : Nat) : Nat := (raise_error_col_loop xml p 1).2

/-- The line `xline` that `_ox_raise_error` reports for the cursor at offset
`p` of the buffer `xml`. -/
def raise_error_line (xml : List Nat) (p : Nat) : Nat :=
  raise_error_line_loop xml (raise_error_col_loop xml p 1).1 1

/-- The function `_ox_raise_error(msg, xml, current, file, line)`, with
`current` at offset `p` of `xml`: the exception it raises. -/
def _ox_raise_error (msg : String) (xml : List Nat) (p : Nat) (file : String) (line : Int) :
    RbErr :=
  ⟨.eSyntaxError,
    msg ++ " at line " ++ toString (raise_error_line xml p) ++ ", column "
      ++ toString (raise_error_col xml p) ++ " [" ++ file ++ ":" ++ toString line ++ "]\n"⟩

/-! ## Vocabulary for the properties of `set_def_opts` -/

/-- The symbol a `ynos` entry of `set_def_opts` pairs with the field. -/
def YnAttr.sym : YnAttr → Sym
  | .with_xml => .with_xml
  | .with_dtd => .with_dtd
  | .with_instruct => .with_instructions
  | .xsd_date => .xsd_date
  | .circular => .circular
  | .sym_keys => .symbolize_keys

/-- The keys `set_def_opts` reads, one per field of the defaults. -/
inductive OptKey
  | encoding | indent | trace | mode | effort
  | yn (a : YnAttr)
  deriving DecidableEq, Repr

/-- The symbol of a key. -/
def OptKey.sym : OptKey → Sym
  | .encoding => .encoding
  | .indent => .indent
  | .trace => .trace
  | .mode => .mode
  | .effort => .effort
  | .yn a => a.sym

/-- The keys in the order in which `set_def_opts` handles them. -/
def set_def_opts_keys : List OptKey :=
  [.encoding, .indent, .trace, .mode, .effort, .yn .with_xml, .yn .with_dtd,
    .yn .with_instruct, .yn .xsd_date, .yn .circular, .yn .sym_keys]

/-- The statements of `set_def_opts` that handle one key. -/
def OptKey.step (k : OptKey) (h : Hash) : Step :=
  match k with
  | .encoding => set_def_opts_encoding h
  | .indent => set_def_opts_indent h
  | .trace => set_def_opts_trace h
  | .mode => set_def_opts_mode h
  | .effort => set_def_opts_effort h
  | .yn a => set_def_opts_loop h [(a.sym, a)]

/-- The statements for a list of keys, one key after the other. -/
def run_keys (h : Hash) : List OptKey → Step
  | [] => fun d => (d, .ok ())
  | k :: ks => (k.step h).andThen (run_keys h ks)

/-- The value the candidate Hash has under a key (`Qnil` when it has none). -/
def OptKey.value (k : OptKey) (h : Hash) : RVal := rb_hash_aref h (.sym k.sym)

/-- Whether `set_def_opts` takes the value `v` for the key without raising. -/
def OptKey.accepts : OptKey → RVal → Bool
  | .encoding, .qnil => true
  | .encoding, .str _ => true
  | .encoding, _ => false
  | .indent, .qnil => true
  | .indent, .fixnum n => fits_int n
  | .indent, _ => false
  | .trace, .qnil => true
  | .trace, .fixnum n => fits_int n
  | .trace, _ => false
  | .mode, v => decide (v ∈ [.qnil, .sym .object, .sym .generic, .sym .limited])
  | .effort, v => decide (v ∈ [.qnil, .sym .strict, .sym .tolerant, .sym .auto_define])
  | .yn _, v => decide (v ∈ [.qnil, .qtrue, .qfalse])

/-- The content of one field of an options record. -/
inductive FieldVal
  | chars (bytes : List Nat)
  | int (n : Int)
  | yesNo (y : YesNo)
  | mode (m : LoadMode)
  | effort (e : Effort)
  deriving DecidableEq, Repr

/-- The field of the record that belongs to a key. -/
def OptKey.field (k : OptKey) (o : Options) : FieldVal :=
  match k with
  | .encoding => .chars o.encoding
  | .indent => .int o.indent
  | .trace => .int o.trace
  | .mode => .mode o.mode
  | .effort => .effort o.effort
  | .yn a => .yesNo (a.load o)

/-- The exception `set_def_opts` raises for a value `v` of key `k` that it does
not take. -/
def OptKey.error : OptKey → RVal → RbErr
  | .encoding, _ => type_error "String"
  | .indent, .fixnum n => out_of_int n
  | .indent, _ => type_error "Fixnum"
  | .trace, .fixnum n => out_of_int n
  | .trace, _ => type_error "Fixnum"
  | .mode, _ => ⟨.eArgError, ":mode must be :object, :generic, :limited, or nil.\n"⟩
  | .effort, _ =>
    ⟨.eArgError, ":effort must be :strict, :tolerant, :auto_define, or nil.\n"⟩
  | .yn a, _ => ⟨.eArgError, a.sym.name ++ " must be true or false.\n"⟩

/-- The `encoding` array after `set_def_opts` took the value `v`. -/
def encoding_after (v : RVal) (encoding : List Nat) : List Nat :=
  match v with
  | .str s => strncpy encoding s (encoding.length - 1)
  | _ => encoding.set 0 0

/-- The `indent` or `trace` field after `set_def_opts` took the value `v`. -/
def int_after (v : RVal) (old : Int) : Int :=
  match v with
  | .fixnum n => if fits_int n then n else old
  | _ => old

/-- The `mode` field after `set_def_opts` took the value `v`. -/
def mode_after (v : RVal) : LoadMode :=
  match v with
  | .sym .object => .ObjMode
  | .sym .generic => .GenMode
  | .sym .limited => .LimMode
  | _ => .NoMode

/-- The `effort` field after `set_def_opts` took the value `v`. -/
def effort_after (v : RVal) : Effort :=
  match v with
  | .sym .strict => .StrictEffort
  | .sym .tolerant => .TolerantEffort
  | .sym .auto_define => .AutoEffort
  | _ => .NoEffort

/-- A flag after `set_def_opts` took the value `v`. -/
def yes_no_after (v : RVal) : YesNo :=
  match v with
  | .qtrue => .Yes
  | .qfalse => .No
  | _ => .NotSet

/-- The record after `set_def_opts` took the value `v` for the key `k`. -/
def OptKey.assign (k : OptKey) (v : RVal) (o : Options) : Options :=
  match k with
  | .encoding => { o with encoding := encoding_after v o.encoding }
  | .indent => { o with indent := int_after v o.indent }
  | .trace => { o with trace := int_after v o.trace }
  | .mode => { o with mode := mode_after v }
  | .effort => { o with effort := effort_after v }
  | .yn a => a.store (yes_no_after v) o

/-- The record after `set_def_opts` took the values of the Hash for the keys
`ks`, one after the other. -/
def assign_keys (h : Hash) (ks : List OptKey) (o : Options) : Options :=
  ks.foldl (fun acc k => k.assign (k.value h) acc) o

/-- The key is absent from the Hash, or present with the value `nil`. -/
def unset_in (h : Hash) (s : Sym) : Prop :=
  List.lookup (RVal.sym s) h = none ∨ List.lookup (RVal.sym s) h = some RVal.qnil

/-- The candidate Hash has a `:mode`, an `:effort` or a flag value that
`set_def_opts` does not know. -/
def rejected_choice (h : Hash) : Prop :=
  rb_hash_aref h (.sym .mode) ∉ [RVal.qnil, .sym .object, .sym .generic, .sym .limited] ∨
  rb_hash_aref h (.sym .effort) ∉ [RVal.qnil, .sym .strict, .sym .tolerant, .sym .auto_define] ∨
  ∃ s ∈ [Sym.with_xml, .with_dtd, .with_instructions, .xsd_date, .circular, .symbolize_keys],
    rb_hash_lookup h (.sym s) ∉ [RVal.qnil, .qtrue, .qfalse]

/-! ## Vocabulary for the properties of the loaders and the locator -/

/-- The buffers handed to `ox_parse` in a list of events, in order. -/
def parsed_buffers : List Event → List (List Nat)
  | [] => []
  | .ox_parse xml _ _ :: rest => xml :: parsed_buffers rest
  | _ :: rest => parsed_buffers rest

/-- The options handed to `ox_parse` in a list of events, in order. -/
def parsed_options : List Event → List Options
  | [] => []
  | .ox_parse _ _ opts :: rest => opts :: parsed_options rest
  | _ :: rest => parsed_options rest

/-- The number of newline bytes of `xml` at offsets below `p`. -/
def newlines_before (xml : List Nat) (p : Nat) : Nat := (xml.take p).count 10

/-! ## `get_def_opts` (ox.c 168-197) -/

/-- Ruby's `rb_hash_aset`: the value of an existing key is replaced in place, a
new key is added at the end. -/
def rb_hash_aset : Hash → RVal → RVal → Hash
  | [], k, v => [(k, v)]
  | (k1, v1) :: rest, k, v =>
    if k1 = k then (k, v) :: rest else (k1, v1) :: rb_hash_aset rest k v

/-- The macro `INT2FIX` on a C `int`. -/
def INT2FIX (n : Int) : RVal := .fixnum n

/-- The rendering `(Yes == x) ? Qtrue : ((No == x) ? Qfalse : Qnil)` of lines
176-181. -/
def yes_no_value (x : YesNo) : RVal :=
  if x = .Yes then .qtrue else if x = .No then .qfalse else .qnil

/-- The function `get_def_opts(self)` on the defaults `d`: the Hash it returns. -/
def get_def_opts (d : Options) : Hash :=
  let opts : Hash := []
  let elen := strlen d.encoding
  let opts := rb_hash_aset opts (.sym .encoding)
    (if 0 = elen then .qnil else .str (d.encoding.take elen))
  let opts := rb_hash_aset opts (.sym .indent) (INT2FIX d.indent)
  let opts := rb_hash_aset opts (.sym .trace) (INT2FIX d.trace)
  let opts := rb_hash_aset opts (.sym .with_dtd) (yes_no_value d.with_dtd)
  let opts := rb_hash_aset opts (.sym .with_xml) (yes_no_value d.with_xml)
  let opts := rb_hash_aset opts (.sym .with_instructions) (yes_no_value d.with_instruct)
  let opts := rb_hash_aset opts (.sym .circular) (yes_no_value d.circular)
  let opts := rb_hash_aset opts (.sym .xsd_date) (yes_no_value d.xsd_date)
  let opts := rb_hash_aset opts (.sym .symbolize_keys) (yes_no_value d.sym_keys)
  let opts :=
    match d.mode with
    | .ObjMode => rb_hash_aset opts (.sym .mode) (.sym .object)
    | .GenMode => rb_hash_aset opts (.sym .mode) (.sym .generic)
    | .LimMode => rb_hash_aset opts (.sym .mode) (.sym .limited)
    | .NoMode => rb_hash_aset opts (.sym .mode) .qnil
  let opts :=
    match d.effort with
    | .StrictEffort => rb_hash_aset opts (.sym .effort) (.sym .strict)
    | .TolerantEffort => rb_hash_aset opts (.sym .effort) (.sym .tolerant)
    | .AutoEffort => rb_hash_aset opts (.sym .effort) (.sym .auto_define)
    | .NoEffort => rb_hash_aset opts (.sym .effort) .qnil
  opts

/-! ## `parse_dump_options` and `dump` (ox.c 535-628) -/

/-- The macro `NUM2INT` of ruby.h on the payload of a Fixnum: the payload as a
C `int`, or a RangeError when it is outside the range of `int`. -/
def NUM2INT (n : Int) : Except RbErr Int :=
  if fits_int n then .ok n else .error (out_of_int n)

/-- Lines 550-555: the `:indent` key. -/
def parse_dump_options_indent (h : Hash) : Step := fun c =>
  match rb_hash_lookup h (.sym .indent) with
  | .qnil => (c, .ok ())
  | .fixnum n =>
    match NUM2INT n with
    | .ok i => ({ c with indent := i }, .ok ())
    | .error e => (c, .error e)
  | _ => (c, .error ⟨.eArgError, ":indent must be a Fixnum.\n"⟩)

/-- Lines 556-561: the `:trace` key. -/
def parse_dump_options_trace (h : Hash) : Step := fun c =>
  match rb_hash_lookup h (.sym .trace) with
  | .qnil => (c, .ok ())
  | .fixnum n =>
    match NUM2INT n with
    | .ok i => ({ c with trace := i }, .ok ())
    | .error e => (c, .error e)
  | _ => (c, .error ⟨.eArgError, ":trace must be a Fixnum.\n"⟩)

/-- Lines 562-567: the `:encoding` key. -/
def parse_dump_options_encoding (h : Hash) : Step := fun c =>
  match rb_hash_lookup h (.sym .encoding) with
  | .qnil => (c, .ok ())
  | .str s => ({ c with encoding := strncpy c.encoding s (c.encoding.length - 1) }, .ok ())
  | _ => (c, .error ⟨.eArgError, ":encoding must be a String.\n"⟩)

/-- Lines 568-578: the `:effort` key. -/
def parse_dump_options_effort (h : Hash) : Step := fun c =>
  match rb_hash_lookup h (.sym .effort) with
  | .qnil => (c, .ok ())
  | .sym .auto_define => ({ c with effort := .AutoEffort }, .ok ())
  | .sym .tolerant => ({ c with effort := .TolerantEffort }, .ok ())
  | .sym .strict => ({ c with effort := .StrictEffort }, .ok ())
  | _ => (c, .error ⟨.eArgError, ":effort must be :strict, :tolerant, or :auto_define.\n"⟩)

/-- The table `ynos` of `parse_dump_options` (lines 537-544), without its
sentinel. -/
def parse_dump_options_ynos : List (Sym × YnAttr) :=
  [ (.with_xml, .with_xml),
    (.with_dtd, .with_dtd),
    (.with_instructions, .with_instruct),
    (.xsd_date, .xsd_date),
    (.circular, .circular) ]

/-- Lines 579-591: the loop over `ynos`. -/
def parse_dump_options_loop (h : Hash) : List (Sym × YnAttr) → Step
  | [] => fun c => (c, .ok ())
  | (s, a) :: rest => fun c =>
    match rb_hash_lookup h (.sym s) with
    | .qnil => parse_dump_options_loop h rest c
    | .qtrue => parse_dump_options_loop h rest (a.store .Yes c)
    | .qfalse => parse_dump_options_loop h rest (a.store .No c)
    | _ => (c, .error ⟨.eArgError, s.name ++ " must be true or false.\n"⟩)

/-- The function `parse_dump_options(ropts, copts)` started on the record
`*copts`: the record when control leaves it, and whether it returned or raised. -/
def parse_dump_options (ropts : Arg) : Step :=
  match ropts with
  | .hash h =>
    (parse_dump_options_indent h).andThen <|
    (parse_dump_options_trace h).andThen <|
    (parse_dump_options_encoding h).andThen <|
    (parse_dump_options_effort h).andThen <|
    parse_dump_options_loop h parse_dump_options_ynos
  | .val _ => fun c => (c, .ok ())

/-- The external `ox_write_obj_to_str`: the XML text, 0 (`none`) when it could
not allocate, or an exception. -/
abbrev Writer := Arg → Options → Except RbErr (Option (List Nat))

/-- A Ruby String result: its bytes and the encoding associated with it. -/
structure RString where
  bytes : List Nat
  enc : Option (List Nat)
  deriving DecidableEq, Repr

/-- A finished `dump`: the options handed to the writer, in order, and the
String returned or the exception raised. -/
structure DumpRun where
  written : List Options
  result : Except RbErr RString

/-- The function `dump(argc, argv, self)` (ox.c 607-628); `obj` is `*argv`,
`rest` the arguments after it, and `has_encoding` the compile-time
`HAS_ENCODING_SUPPORT`. -/
def dump (ox_write_obj_to_str : Writer) (has_encoding : Bool) (defaults : Options)
    (obj : Arg) (rest : List Arg) : DumpRun :=
  let merged : Options × Except RbErr Unit :=
    match rest with
    | [ropts] => parse_dump_options ropts defaults
    | _ => (defaults, .ok ())
  match merged with
  | (_, .error e) => ⟨[], .error e⟩
  | (copts, .ok _) =>
    match ox_write_obj_to_str obj copts with
    | .error e => ⟨[copts], .error e⟩
    | .ok none => ⟨[copts], .error ⟨.eNoMemError, "Not enough memory.\n"⟩⟩
    | .ok (some xml) =>
      ⟨[copts],
        .ok ⟨c_str xml,
          if has_encoding && decide (c_str copts.encoding ≠ []) then some (c_str copts.encoding)
          else none⟩⟩

/-! ## Counting the steps of `_ox_raise_error` -/

/-- The number of backward steps (`current--`) of the first loop (line 783)
started at the offset `current`. -/
def raise_error_col_steps (xml : List Nat) : Nat → Nat
  | 0 => 0
  | current + 1 =>
    if xml.getD (current + 1) 0 ≠ 10 then raise_error_col_steps xml current + 1 else 0

/-- The number of backward steps (`current--`) of the second loop (lines
786-790) started at the offset `current`. -/
def raise_error_line_steps (_xml : List Nat) : Nat → Nat
  | 0 => 0
  | current + 1 => raise_error_line_steps _xml current + 1

/-- The number of backward steps of both loops of `_ox_raise_error` for the
cursor at offset `p`: each step examines one byte. -/
def raise_error_steps (xml : List Nat) (p : Nat) : Nat :=
  raise_error_col_steps xml p + raise_error_line_steps xml (raise_error_col_loop xml p 1).1

/-! ## Vocabulary for the properties of the defaults, of `dump` and of the step count -/

/-- The keys `parse_dump_options` reads. -/
def parse_dump_options_keys : List Sym :=
  [.indent, .trace, .encoding, .effort, .with_xml, .with_dtd, .with_instructions, .xsd_date,
    .circular]

/-- The defaults after the calls `set_def_opts(calls[0])`, `set_def_opts(calls[1])`,
... made in this order since start-up, whether they returned or raised. -/
def defaults_after (encSize : Nat) (calls : List Arg) : Options :=
  calls.foldl (fun d opts => (set_def_opts d opts).1) (ox_default_options encSize)

/-- The distance from the cursor at offset `p` back to the nearest newline at
or before it (to the start of the buffer when there is none). -/
def newline_distance (xml : List Nat) : Nat → Nat
  | 0 => 0
  | p + 1 => if xml.getD (p + 1) 0 = 10 then 0 else newline_distance xml p + 1

/-- The value `get_def_opts` stores under `:mode` (lines 182-188). -/
def mode_value (m : LoadMode) : RVal :=
  match m with
  | .ObjMode => .sym .object
  | .GenMode => .sym .generic
  | .LimMode => .sym .limited
  | .NoMode => .qnil

/-- The value `get_def_opts` stores under `:effort` (lines 189-195). -/
def effort_value (e : Effort) : RVal :=
  match e with
  | .StrictEffort => .sym .strict
  | .TolerantEffort => .sym .tolerant
  | .AutoEffort => .sym .auto_define
  | .NoEffort => .qnil

/-- The value `get_def_opts` stores under `:encoding` (line 173). -/
def encoding_value (encoding : List Nat) : RVal :=
  if 0 = strlen encoding then .qnil else .str (encoding.take (strlen encoding))

/-- The shapes the `encoding` array takes: empty, or starting and ending with
NUL, or a text without NUL followed by NUL bytes only. -/
def encoding_shape (enc : List Nat) : Prop :=
  enc = [] ∨ (enc.head? = some 0 ∧ enc.getLast? = some 0) ∨
    ∃ s k, 0 ∉ s ∧ enc = s ++ List.replicate k 0 ++ [0]

/-! ## Properties -/

/-! ### `set_def_opts`: one key at a time -/

theorem andThen_done (s : Step) : s.andThen (fun d => (d, .ok ())) = s := by
  funext d
  unfold Step.andThen
  split <;> simp_all

theorem set_def_opts_loop_cons (h : Hash) (e : Sym × YnAttr) (rest : List (Sym × YnAttr)) :
    set_def_opts_loop h (e :: rest)
      = (set_def_opts_loop h [e]).andThen (set_def_opts_loop h rest) := by
  funext d
  obtain ⟨s, a⟩ := e
  simp only [set_def_opts_loop, Step.andThen]
  split <;> simp_all

theorem set_def_opts_body_eq (h : Hash) :
    set_def_opts_body h = run_keys h set_def_opts_keys := by
  simp only [set_def_opts_body, set_def_opts_keys, run_keys, OptKey.step, set_def_opts_ynos,
    YnAttr.sym, andThen_done]
  rw [set_def_opts_loop_cons h _ (_ :: _), set_def_opts_loop_cons h _ (_ :: _),
    set_def_opts_loop_cons h _ (_ :: _), set_def_opts_loop_cons h _ (_ :: _),
    set_def_opts_loop_cons h _ (_ :: _)]

theorem rb_hash_lookup_eq (h : Hash) (k : RVal) : rb_hash_lookup h k = rb_hash_aref h k := rfl

theorem step_rejects (k : OptKey) (h : Hash) (d : Options)
    (hv : k.accepts (k.value h) = false) :
    k.step h d = (d, .error (k.error (k.value h))) := by
  cases k <;>
    simp only [OptKey.step, OptKey.value, OptKey.sym, set_def_opts_encoding,
      set_def_opts_indent, set_def_opts_trace, set_def_opts_mode, set_def_opts_effort,
      set_def_opts_loop, rb_hash_lookup_eq] at hv ⊢ <;>
    generalize rb_hash_aref h _ = v at hv ⊢ <;>
    rcases v with _ | _ | _ | n | b | s | i <;>
    simp_all [OptKey.accepts, OptKey.error, FIX2INT]

theorem step_accepts (k : OptKey) (h : Hash) (d : Options)
    (hv : k.accepts (k.value h) = true) :
    k.step h d = (k.assign (k.value h) d, .ok ()) := by
  cases k <;>
    simp only [OptKey.step, OptKey.value, OptKey.sym, set_def_opts_encoding,
      set_def_opts_indent, set_def_opts_trace, set_def_opts_mode, set_def_opts_effort,
      set_def_opts_loop, rb_hash_lookup_eq, OptKey.assign] at hv ⊢ <;>
    generalize rb_hash_aref h _ = v at hv ⊢ <;>
    rcases v with _ | _ | _ | n | b | s | i <;>
    first
      | (simp_all [OptKey.accepts, encoding_after, int_after, mode_after, effort_after,
          yes_no_after, FIX2INT]; done)
      | (cases s <;>
          simp_all [OptKey.accepts, encoding_after, int_after, mode_after, effort_after,
            yes_no_after])

/-! ### `set_def_opts`: the keys in sequence -/

theorem run_keys_accepted (h : Hash) (ks : List OptKey) (d : Options)
    (hall : ∀ k ∈ ks, k.accepts (k.value h) = true) :
    run_keys h ks d = (assign_keys h ks d, .ok ()) := by
  induction ks generalizing d with
  | nil => rfl
  | cons k ks ih =>
    have hk := step_accepts k h d (hall k (List.mem_cons_self k ks))
    simp only [run_keys, Step.andThen, hk]
    rw [ih _ (fun j hj => hall j (List.mem_cons_of_mem k hj))]
    rfl

theorem run_keys_rejected (h : Hash) (pre : List OptKey) (k : OptKey) (post : List OptKey)
    (d : Options) (hpre : ∀ j ∈ pre, j.accepts (j.value h) = true)
    (hk : k.accepts (k.value h) = false) :
    run_keys h (pre ++ k :: post) d = (assign_keys h pre d, .error (k.error (k.value h))) := by
  induction pre generalizing d with
  | nil => simp [run_keys, Step.andThen, step_rejects k h d hk, assign_keys]
  | cons j pre ih =>
    have hj := step_accepts j h d (hpre j (List.mem_cons_self j pre))
    simp only [List.cons_append, run_keys, Step.andThen, hj]
    exact ih _ (fun i hi => hpre i (List.mem_cons_of_mem j hi))

theorem first_rejected (h : Hash) (ks : List OptKey) :
    (∀ k ∈ ks, k.accepts (k.value h) = true) ∨
      ∃ pre k post, ks = pre ++ k :: post ∧ (∀ j ∈ pre, j.accepts (j.value h) = true) ∧
        k.accepts (k.value h) = false := by
  induction ks with
  | nil => left; simp
  | cons k ks ih =>
    cases hk : k.accepts (k.value h) with
    | false => exact Or.inr ⟨[], k, ks, rfl, by simp, hk⟩
    | true =>
      rcases ih with hall | ⟨pre, j, post, rfl, hpre, hj⟩
      · left
        intro i hi
        rcases List.mem_cons.mp hi with rfl | hi
        · exact hk
        · exact hall i hi
      · right
        refine ⟨k :: pre, j, post, rfl, ?_, hj⟩
        intro i hi
        rcases List.mem_cons.mp hi with rfl | hi
        · exact hk
        · exact hpre i hi

theorem assign_other_field (j k : OptKey) (v : RVal) (o : Options) (hjk : j ≠ k) :
    j.field (k.assign v o) = j.field o := by
  rcases j with _ | _ | _ | _ | _ | a <;> rcases k with _ | _ | _ | _ | _ | b <;>
    (try cases a) <;> (try cases b) <;>
    simp_all [OptKey.field, OptKey.assign, YnAttr.store, YnAttr.load]

theorem assign_keys_other_field (h : Hash) (j : OptKey) (ks : List OptKey) (o : Options)
    (hj : j ∉ ks) : j.field (assign_keys h ks o) = j.field o := by
  induction ks generalizing o with
  | nil => rfl
  | cons k ks ih =>
    have hne : j ≠ k := fun e => hj (e ▸ List.mem_cons_self k ks)
    have hnot : j ∉ ks := fun hm => hj (List.mem_cons_of_mem k hm)
    simp only [assign_keys, List.foldl_cons] at ih ⊢
    rw [ih _ hnot, assign_other_field j k _ o hne]

theorem set_def_opts_accepted (d : Options) (h : Hash)
    (hall : ∀ k ∈ set_def_opts_keys, k.accepts (k.value h) = true) :
    set_def_opts d (.hash h) = (assign_keys h set_def_opts_keys d, .ok .qnil) := by
  simp only [set_def_opts, set_def_opts_body_eq, run_keys_accepted h _ d hall]

theorem set_def_opts_rejected (d : Options) (h : Hash) (pre : List OptKey) (k : OptKey)
    (post : List OptKey) (hsplit : set_def_opts_keys = pre ++ k :: post)
    (hpre : ∀ j ∈ pre, j.accepts (j.value h) = true) (hk : k.accepts (k.value h) = false) :
    set_def_opts d (.hash h) = (assign_keys h pre d, .error (k.error (k.value h))) := by
  simp only [set_def_opts, set_def_opts_body_eq, hsplit, run_keys_rejected h pre k post d hpre hk]

theorem set_def_opts_keys_nodup : set_def_opts_keys.Nodup := by decide

theorem unset_in_value (h : Hash) (k : OptKey) (hu : unset_in h k.sym) : k.value h = .qnil := by
  rcases hu with hu | hu <;> simp [OptKey.value, rb_hash_aref, hu]

/-! ### C1: a failed `set_def_opts` -/

/-- C1, as stated, fails: from the initial defaults the candidate
`{indent: 7, mode: "bogus"}` makes `set_def_opts` raise the argument error,
and the defaults it leaves have `indent` 7 where they had 2. -/
theorem set_def_opts_failure_is_partial :
    (set_def_opts (ox_default_options 64)
        (.hash [(.sym .indent, .fixnum 7), (.sym .mode, .str [98, 111, 103, 117, 115])])).2
      = .error ⟨.eArgError, ":mode must be :object, :generic, :limited, or nil.\n"⟩ ∧
    (set_def_opts (ox_default_options 64)
        (.hash [(.sym .indent, .fixnum 7), (.sym .mode, .str [98, 111, 103, 117, 115])])).1.indent
      = 7 ∧
    (ox_default_options 64).indent = 2 ∧
    (set_def_opts (ox_default_options 64)
        (.hash [(.sym .indent, .fixnum 7), (.sym .mode, .str [98, 111, 103, 117, 115])])).1
      ≠ ox_default_options 64 := by
  refine ⟨rfl, rfl, rfl, ?_⟩
  intro hcontra
  have hind := congrArg Options.indent hcontra
  revert hind
  decide

/-- C1 (amended): `set_def_opts` handles the keys in the order encoding, indent,
trace, mode, effort, with_xml, with_dtd, with_instructions, xsd_date, circular,
symbolize_keys and raises at the first value it does not take; when a call on a
Hash fails, the defaults it leaves are the prior ones with the values of the
keys before the rejected one stored, so the field of the rejected key and the
field of every key after it are the same after the call as before it. -/
theorem set_def_opts_failure_keeps_later_fields (d : Options) (h : Hash) (e : RbErr)
    (hfail : (set_def_opts d (.hash h)).2 = .error e) :
    ∃ pre k post, set_def_opts_keys = pre ++ k :: post ∧
      (∀ j ∈ pre, j.accepts (j.value h) = true) ∧
      k.accepts (k.value h) = false ∧
      e = k.error (k.value h) ∧
      (set_def_opts d (.hash h)).1 = assign_keys h pre d ∧
      ∀ j ∈ k :: post, j.field (set_def_opts d (.hash h)).1 = j.field d := by
  rcases first_rejected h set_def_opts_keys with hall | ⟨pre, k, post, hsplit, hpre, hk⟩
  · rw [set_def_opts_accepted d h hall] at hfail
    cases hfail
  · rw [set_def_opts_rejected d h pre k post hsplit hpre hk] at hfail ⊢
    refine ⟨pre, k, post, hsplit, hpre, hk, ?_, rfl, ?_⟩
    · simpa using hfail.symm
    · intro j hj
      have hnd := set_def_opts_keys_nodup
      rw [hsplit] at hnd
      have hdis := (List.nodup_append.mp hnd).2.2
      exact assign_keys_other_field h j pre d (fun hjp => hdis hjp hj)

/-- C1 (amended), at the initial defaults and `{indent: 7, mode: "bogus"}`. -/
theorem set_def_opts_failure_keeps_later_fields_witness :
    (set_def_opts (ox_default_options 64)
        (.hash [(.sym .indent, .fixnum 7), (.sym .mode, .str [98, 111, 103, 117, 115])])).2
      = .error (OptKey.error .mode (.str [98, 111, 103, 117, 115])) ∧
    ∃ pre k post, set_def_opts_keys = pre ++ k :: post ∧
      (∀ j ∈ pre, j.accepts
        (j.value [(.sym .indent, .fixnum 7), (.sym .mode, .str [98, 111, 103, 117, 115])])
          = true) ∧
      k.accepts (k.value [(.sym .indent, .fixnum 7), (.sym .mode, .str [98, 111, 103, 117, 115])])
        = false ∧
      OptKey.error .mode (.str [98, 111, 103, 117, 115])
        = k.error
            (k.value [(.sym .indent, .fixnum 7), (.sym .mode, .str [98, 111, 103, 117, 115])]) ∧
      (set_def_opts (ox_default_options 64)
          (.hash [(.sym .indent, .fixnum 7), (.sym .mode, .str [98, 111, 103, 117, 115])])).1
        = assign_keys [(.sym .indent, .fixnum 7), (.sym .mode, .str [98, 111, 103, 117, 115])]
            pre (ox_default_options 64) ∧
      ∀ j ∈ k :: post,
        j.field (set_def_opts (ox_default_options 64)
          (.hash [(.sym .indent, .fixnum 7), (.sym .mode, .str [98, 111, 103, 117, 115])])).1
          = j.field (ox_default_options 64) :=
  ⟨rfl, set_def_opts_failure_keeps_later_fields _ _ _ rfl⟩

/-! ### C5: keys that the candidate leaves out -/

theorem c_str_set_zero (buf : List Nat) : c_str (buf.set 0 0) = [] := by
  cases buf <;> simp [c_str]

theorem set_def_opts_ok_accepted (d : Options) (h : Hash) (v : RVal)
    (hok : (set_def_opts d (.hash h)).2 = .ok v) :
    ∀ k ∈ set_def_opts_keys, k.accepts (k.value h) = true := by
  rcases first_rejected h set_def_opts_keys with hall | ⟨pre, k, post, hsplit, hpre, hk⟩
  · exact hall
  · rw [set_def_opts_rejected d h pre k post hsplit hpre hk] at hok
    cases hok

/-- C5, as stated, fails: from the initial defaults the candidate `{indent: 4}`
is taken without error, it has no `:effort`, `:mode` or `:symbolize_keys` key,
and yet the call turns `effort` from StrictEffort into NoEffort and
`sym_keys` from Yes into NotSet. -/
theorem set_def_opts_resets_absent_keys :
    (set_def_opts (ox_default_options 64) (.hash [(.sym .indent, .fixnum 4)])).2 = .ok .qnil ∧
    List.lookup (RVal.sym .effort) [(RVal.sym .indent, RVal.fixnum 4)] = none ∧
    List.lookup (RVal.sym .symbolize_keys) [(RVal.sym .indent, RVal.fixnum 4)] = none ∧
    (ox_default_options 64).effort = .StrictEffort ∧
    (set_def_opts (ox_default_options 64) (.hash [(.sym .indent, .fixnum 4)])).1.effort
      = .NoEffort ∧
    (ox_default_options 64).sym_keys = .Yes ∧
    (set_def_opts (ox_default_options 64) (.hash [(.sym .indent, .fixnum 4)])).1.sym_keys
      = .NotSet := by
  refine ⟨rfl, ?_, ?_, rfl, rfl, rfl, rfl⟩ <;> decide

/-- C5 (amended): when `set_def_opts` succeeds, `indent` and `trace` keep their
value if their key is absent from the candidate (or nil in it); every other
field is reset when its key is absent, just as when it is nil: the encoding
becomes the empty string, `mode` NoMode, `effort` NoEffort and each of the six
flags NotSet. -/
theorem set_def_opts_absent_keys (d : Options) (h : Hash)
    (hok : (set_def_opts d (.hash h)).2 = .ok .qnil) :
    (unset_in h .indent → (set_def_opts d (.hash h)).1.indent = d.indent) ∧
    (unset_in h .trace → (set_def_opts d (.hash h)).1.trace = d.trace) ∧
    (unset_in h .encoding → strlen (set_def_opts d (.hash h)).1.encoding = 0) ∧
    (unset_in h .mode → (set_def_opts d (.hash h)).1.mode = .NoMode) ∧
    (unset_in h .effort → (set_def_opts d (.hash h)).1.effort = .NoEffort) ∧
    ∀ a : YnAttr, unset_in h a.sym → a.load (set_def_opts d (.hash h)).1 = .NotSet := by
  have hall := set_def_opts_ok_accepted d h _ hok
  rw [set_def_opts_accepted d h hall]
  simp only [assign_keys, set_def_opts_keys, List.foldl_cons, List.foldl_nil]
  refine ⟨fun hu => ?_, fun hu => ?_, fun hu => ?_, fun hu => ?_, fun hu => ?_, fun a hu => ?_⟩
  · have hv := unset_in_value h .indent hu
    simp [OptKey.assign, YnAttr.store, hv, int_after]
  · have hv := unset_in_value h .trace hu
    simp [OptKey.assign, YnAttr.store, hv, int_after]
  · have hv := unset_in_value h .encoding hu
    simp [OptKey.assign, YnAttr.store, hv, encoding_after, strlen, c_str_set_zero]
  · have hv := unset_in_value h .mode hu
    simp [OptKey.assign, YnAttr.store, hv, mode_after]
  · have hv := unset_in_value h .effort hu
    simp [OptKey.assign, YnAttr.store, hv, effort_after]
  · have hv := unset_in_value h (.yn a) hu
    cases a <;> simp [OptKey.assign, YnAttr.store, YnAttr.load, hv, yes_no_after]

/-- C5 (amended), at the initial defaults and `{indent: 4}`. -/
theorem set_def_opts_absent_keys_witness :
    (set_def_opts (ox_default_options 64) (.hash [(.sym .indent, .fixnum 4)])).2 = .ok .qnil ∧
    unset_in [(RVal.sym .indent, RVal.fixnum 4)] .effort ∧
    (set_def_opts (ox_default_options 64) (.hash [(.sym .indent, .fixnum 4)])).1.effort
      = .NoEffort :=
  ⟨rfl, Or.inl (by decide),
    (set_def_opts_absent_keys (ox_default_options 64) [(.sym .indent, .fixnum 4)] rfl).2.2.2.2.1
      (Or.inl (by decide))⟩

/-! ### C7: when `set_def_opts` raises the argument error -/

theorem rejected_choice_iff (h : Hash) :
    rejected_choice h ↔
      ∃ k ∈ [OptKey.mode, .effort, .yn .with_xml, .yn .with_dtd, .yn .with_instruct,
          .yn .xsd_date, .yn .circular, .yn .sym_keys], k.accepts (k.value h) = false := by
  simp [rejected_choice, OptKey.accepts, OptKey.value, OptKey.sym, YnAttr.sym,
    rb_hash_lookup_eq]

/-- C7, as stated, fails: the candidate `{indent: 2147483648}` has a Fixnum
under `:indent` and nothing else, no value is outside the allowed sets, and yet
`set_def_opts` does not return nil: `FIX2INT` raises a RangeError. With
`{indent: 2147483648, mode: "bogus"}` the mode is outside its set and the
exception is that RangeError, not the argument error. -/
theorem set_def_opts_range_error :
    rb_hash_aref [(.sym .indent, .fixnum 2147483648)] (.sym .indent) = .fixnum 2147483648 ∧
    rb_hash_aref [(.sym .indent, .fixnum 2147483648)] (.sym .encoding) = .qnil ∧
    rb_hash_aref [(.sym .indent, .fixnum 2147483648)] (.sym .trace) = .qnil ∧
    ¬ rejected_choice [(.sym .indent, .fixnum 2147483648)] ∧
    (set_def_opts (ox_default_options 64) (.hash [(.sym .indent, .fixnum 2147483648)])).2
      = .error (out_of_int 2147483648) ∧
    (out_of_int 2147483648).cls = .eRangeError ∧
    rejected_choice
      [(.sym .indent, .fixnum 2147483648), (.sym .mode, .str [98, 111, 103, 117, 115])] ∧
    (set_def_opts (ox_default_options 64)
        (.hash [(.sym .indent, .fixnum 2147483648),
          (.sym .mode, .str [98, 111, 103, 117, 115])])).2
      = .error (out_of_int 2147483648) := by
  refine ⟨by decide, by decide, by decide, ?_, rfl, rfl, ?_, rfl⟩
  · rw [rejected_choice_iff]
    decide
  · rw [rejected_choice_iff]
    decide

/-- C7 (amended): on a candidate Hash whose `:encoding` is nil or a String and
whose `:indent` and `:trace` are nil or Fixnums within the range of a C `int`,
`set_def_opts` raises the argument error exactly when `:mode`, `:effort` or one
of the six flags has a value outside its allowed set, and otherwise it returns
nil. -/
theorem set_def_opts_arg_error_iff (d : Options) (h : Hash)
    (henc : rb_hash_aref h (.sym .encoding) = .qnil ∨
      ∃ s, rb_hash_aref h (.sym .encoding) = .str s)
    (hind : rb_hash_aref h (.sym .indent) = .qnil ∨
      ∃ n, rb_hash_aref h (.sym .indent) = .fixnum n ∧ fits_int n = true)
    (htr : rb_hash_aref h (.sym .trace) = .qnil ∨
      ∃ n, rb_hash_aref h (.sym .trace) = .fixnum n ∧ fits_int n = true) :
    ((∃ e, (set_def_opts d (.hash h)).2 = .error e ∧ e.cls = .eArgError) ↔ rejected_choice h) ∧
    (¬ rejected_choice h → (set_def_opts d (.hash h)).2 = .ok .qnil) := by
  have h1 : OptKey.accepts .encoding (OptKey.value .encoding h) = true := by
    rcases henc with hv | ⟨s, hv⟩ <;> simp [OptKey.value, OptKey.sym, hv, OptKey.accepts]
  have h2 : OptKey.accepts .indent (OptKey.value .indent h) = true := by
    rcases hind with hv | ⟨n, hv, hn⟩
    · simp [OptKey.value, OptKey.sym, hv, OptKey.accepts]
    · simp [OptKey.value, OptKey.sym, hv, OptKey.accepts, hn]
  have h3 : OptKey.accepts .trace (OptKey.value .trace h) = true := by
    rcases htr with hv | ⟨n, hv, hn⟩
    · simp [OptKey.value, OptKey.sym, hv, OptKey.accepts]
    · simp [OptKey.value, OptKey.sym, hv, OptKey.accepts, hn]
  rw [rejected_choice_iff]
  rcases first_rejected h set_def_opts_keys with hall | ⟨pre, k, post, hsplit, hpre, hk⟩
  · have hno : ¬ ∃ k ∈ [OptKey.mode, .effort, .yn .with_xml, .yn .with_dtd, .yn .with_instruct,
        .yn .xsd_date, .yn .circular, .yn .sym_keys], k.accepts (k.value h) = false := by
      rintro ⟨k, hk, hv⟩
      have hmem : k ∈ set_def_opts_keys :=
        List.mem_cons_of_mem _ (List.mem_cons_of_mem _ (List.mem_cons_of_mem _ hk))
      rw [hall k hmem] at hv
      cases hv
    rw [set_def_opts_accepted d h hall]
    refine ⟨⟨?_, fun hr => absurd hr hno⟩, fun _ => rfl⟩
    rintro ⟨e, he, _⟩
    cases he
  · have hmem : k ∈ set_def_opts_keys := by rw [hsplit]; simp
    rw [set_def_opts_rejected d h pre k post hsplit hpre hk]
    have hlate : k ∈ [OptKey.mode, .effort, .yn .with_xml, .yn .with_dtd, .yn .with_instruct,
        .yn .xsd_date, .yn .circular, .yn .sym_keys] := by
      simp only [set_def_opts_keys, List.mem_cons] at hmem
      rcases hmem with rfl | rfl | rfl | hmem
      · rw [h1] at hk; cases hk
      · rw [h2] at hk; cases hk
      · rw [h3] at hk; cases hk
      · simpa using hmem
    have hyes : ∃ k ∈ [OptKey.mode, .effort, .yn .with_xml, .yn .with_dtd, .yn .with_instruct,
        .yn .xsd_date, .yn .circular, .yn .sym_keys], k.accepts (k.value h) = false :=
      ⟨k, hlate, hk⟩
    refine ⟨⟨fun _ => hyes, fun _ => ⟨k.error (k.value h), rfl, ?_⟩⟩,
      fun hn => absurd hyes hn⟩
    simp only [List.mem_cons, List.mem_singleton, List.not_mem_nil, or_false] at hlate
    rcases hlate with rfl | rfl | rfl | rfl | rfl | rfl | rfl | rfl <;> rfl

/-- C7 (amended), at the candidate `{indent: 4, mode: :generic, with_xml: 1}`,
whose flag value is not a boolean. -/
theorem set_def_opts_arg_error_iff_witness :
    rejected_choice
      [(.sym .indent, .fixnum 4), (.sym .mode, .sym .generic), (.sym .with_xml, .fixnum 1)] ∧
    ∃ e, (set_def_opts (ox_default_options 64)
        (.hash [(.sym .indent, .fixnum 4), (.sym .mode, .sym .generic),
          (.sym .with_xml, .fixnum 1)])).2 = .error e ∧
      e.cls = .eArgError :=
  have hiff := (set_def_opts_arg_error_iff (ox_default_options 64)
    [(.sym .indent, .fixnum 4), (.sym .mode, .sym .generic), (.sym .with_xml, .fixnum 1)]
    (Or.inl (by decide)) (Or.inr ⟨4, by decide, by decide⟩) (Or.inl (by decide))).1
  have hrej : rejected_choice
      [(.sym .indent, .fixnum 4), (.sym .mode, .sym .generic), (.sym .with_xml, .fixnum 1)] :=
    Or.inr (Or.inr ⟨.with_xml, by decide, by decide⟩)
  ⟨hrej, hiff.mpr hrej⟩

/-! ### C2 and C3: the column and line that `_ox_raise_error` reports -/

/-- C2, where the code departs from it: in the buffer "a\nbc" the cursor at
offset 2 is the first byte of the second line and the nearest newline before it
is at offset 1, yet the column reported is 2; in "\nab" the cursor at offset 1
follows the newline at offset 0, yet the column reported is 2; and in "ab\n"
the cursor at offset 2, on the newline itself and with no newline before it, is
reported in column 1 and not in column 3. On the first line the column is the
offset plus 1. -/
theorem raise_error_col_after_newline :
    raise_error_col [97, 10, 98, 99] 2 = 2 ∧
    raise_error_col [10, 97, 98] 1 = 2 ∧
    raise_error_col [97, 98, 10] 2 = 1 ∧
    raise_error_col [97, 98, 99] 2 = 3 := by
  decide

/-- C3, where the code departs from it: in the buffer "\nab" the cursor at
offset 1 has one newline before it, yet the line reported is 1; in "ab\n" the
cursor at offset 2 has no newline before it, yet the line reported is 2. -/
theorem raise_error_line_miscounts :
    newlines_before [10, 97, 98] 1 = 1 ∧
    raise_error_line [10, 97, 98] 1 = 1 ∧
    newlines_before [97, 98, 10] 2 = 0 ∧
    raise_error_line [97, 98, 10] 2 = 2 := by
  decide

/-! ### C4: the copy of the text handed to the parser -/

theorem c_str_of_no_nul (text : List Nat) (hnul : 0 ∉ text) : c_str text = text := by
  unfold c_str
  rw [List.takeWhile_eq_self_iff]
  intro b hb
  have : b ≠ 0 := fun e => hnul (e ▸ hb)
  simpa using this

theorem fresh_block_length (junk : Nat → Nat) (len : Nat) :
    (fresh_block junk len).length = len := by
  simp [fresh_block]

theorem strcpy_fresh_block (junk : Nat → Nat) (text : List Nat) (hnul : 0 ∉ text) :
    strcpy (fresh_block junk (text.length + 1)) text = text ++ [0] := by
  unfold strcpy
  rw [c_str_of_no_nul text hnul, List.drop_of_length_le (by simp [fresh_block_length])]
  simp

theorem parsed_buffers_append (xs ys : List Event) :
    parsed_buffers (xs ++ ys) = parsed_buffers xs ++ parsed_buffers ys := by
  induction xs with
  | nil => rfl
  | cons x xs ih => cases x <;> simp [parsed_buffers, ih]

theorem parsed_buffers_alloc_cons (heap : Bool) (len : Nat) (rest : List Event) :
    parsed_buffers (alloc_event heap len :: rest) = parsed_buffers rest := by
  cases heap <;> rfl

theorem parsed_buffers_free (heap : Bool) : parsed_buffers (free_events heap) = [] := by
  cases heap <;> rfl

theorem parsed_buffers_load (ox_parse : Parser) (defaults : Options) (xml : List Nat)
    (argv : List Arg) :
    parsed_buffers (load ox_parse defaults xml argv).events
      = if (load_options defaults argv).toBool then [xml] else [] := by
  unfold load
  cases hopt : load_options defaults argv with
  | error e => rfl
  | ok options => cases hm : options.mode <;> simp [hm, parsed_buffers, Except.toBool]

/-- C4, as stated, fails: for the text "a\0b", with an embedded NUL, `load_str`
hands the parser a buffer of 4 bytes whose third byte is whatever the fresh
block held (here 7) and not the "b" of the text. -/
theorem load_str_stops_at_nul :
    parsed_buffers
        (load_str (fun _ _ _ => .ok .qnil) (fun _ => 7) (ox_default_options 64)
          (.val (.str [97, 0, 98])) []).events
      = [[97, 0, 7, 7]] ∧
    [97, 0, 7, 7] ≠ [97, 0, 98] ++ [0] := by
  decide

/-- C4 (amended): for every text without a NUL byte, of any length and so in
either tier, and whatever the fresh block held, the buffer that `to_obj`,
`to_gen` and `load_str` hand to the parser is the text followed by the NUL
terminator, `len(text)+1` bytes in all (`load_str` hands it over whenever its
options are accepted); for the empty text it is the terminator alone. -/
theorem text_buffer_is_exact_copy (ox_parse : Parser) (junk : Nat → Nat) (defaults : Options)
    (text : List Nat) (rest : List Arg) (hnul : 0 ∉ text) :
    parsed_buffers (to_obj ox_parse junk defaults (.val (.str text))).events = [text ++ [0]] ∧
    parsed_buffers (to_gen ox_parse junk defaults (.val (.str text))).events = [text ++ [0]] ∧
    parsed_buffers (load_str ox_parse junk defaults (.val (.str text)) rest).events
      = (if (load_options defaults rest).toBool then [text ++ [0]] else []) ∧
    (text ++ [0]).length = text.length + 1 := by
  have hcopy := strcpy_fresh_block junk text hnul
  refine ⟨?_, ?_, ?_, by simp⟩
  · simp only [to_obj, hcopy]
    split <;>
      simp [parsed_buffers_alloc_cons, parsed_buffers_free, parsed_buffers]
  · simp only [to_gen, hcopy]
    split <;>
      simp [parsed_buffers_alloc_cons, parsed_buffers_free, parsed_buffers]
  · simp only [load_str, hcopy]
    split <;>
      simp [parsed_buffers_append, parsed_buffers_alloc_cons, parsed_buffers_free,
        parsed_buffers_load]

/-- C4 (amended), at the text "<a/>" and at the empty text. -/
theorem text_buffer_is_exact_copy_witness :
    0 ∉ [60, 97, 47, 62] ∧
    parsed_buffers
        (load_str (fun _ _ _ => .ok .qnil) (fun _ => 7) (ox_default_options 64)
          (.val (.str [60, 97, 47, 62])) []).events
      = [[60, 97, 47, 62, 0]] ∧
    parsed_buffers
        (to_obj (fun _ _ _ => .ok .qnil) (fun _ => 7) (ox_default_options 64)
          (.val (.str []))).events
      = [[0]] :=
  ⟨by decide,
    (text_buffer_is_exact_copy (fun _ _ _ => .ok .qnil) (fun _ => 7) (ox_default_options 64)
      [60, 97, 47, 62] [] (by decide)).2.2.1,
    (text_buffer_is_exact_copy (fun _ _ _ => .ok .qnil) (fun _ => 7) (ox_default_options 64)
      [] [] (by decide)).1⟩

/-! ### C6 and C10: the options and callbacks `load` hands to the parser -/

/-- C6: whenever the option merge of `load` succeeds with the options
`options`, `load` calls the parser exactly once, on its buffer, with `options`
themselves and with the callbacks that belong to `options.mode` (object for
ObjMode, generic for GenMode, limited for LimMode, no-mode for NoMode), and
answers what the parser answers. -/
theorem load_dispatches_on_mode (ox_parse : Parser) (defaults : Options) (xml : List Nat)
    (argv : List Arg) (options : Options) (hopt : load_options defaults argv = .ok options) :
    ∃ cbs, (load ox_parse defaults xml argv).events = [.ox_parse xml cbs options] ∧
      (load ox_parse defaults xml argv).result = ox_parse xml cbs options ∧
      (cbs = .ox_obj_callbacks ↔ options.mode = .ObjMode) ∧
      (cbs = .ox_gen_callbacks ↔ options.mode = .GenMode) ∧
      (cbs = .ox_limited_callbacks ↔ options.mode = .LimMode) ∧
      (cbs = .ox_nomode_callbacks ↔ options.mode = .NoMode) := by
  unfold load
  rw [hopt]
  cases hm : options.mode
  · exact ⟨.ox_nomode_callbacks, by simp [hm]⟩
  · exact ⟨.ox_obj_callbacks, by simp [hm]⟩
  · exact ⟨.ox_gen_callbacks, by simp [hm]⟩
  · exact ⟨.ox_limited_callbacks, by simp [hm]⟩

/-- C6, at the initial defaults and the options `{mode: :limited}`. -/
theorem load_dispatches_on_mode_witness :
    load_options (ox_default_options 64) [.hash [(.sym .mode, .sym .limited)]]
      = .ok { ox_default_options 64 with mode := .LimMode } ∧
    ∃ cbs, (load (fun _ _ _ => .ok .qtrue) (ox_default_options 64) [60, 97, 47, 62, 0]
        [.hash [(.sym .mode, .sym .limited)]]).events
        = [.ox_parse [60, 97, 47, 62, 0] cbs { ox_default_options 64 with mode := .LimMode }] ∧
      (load (fun _ _ _ => .ok .qtrue) (ox_default_options 64) [60, 97, 47, 62, 0]
        [.hash [(.sym .mode, .sym .limited)]]).result = .ok .qtrue ∧
      (cbs = .ox_obj_callbacks ↔ LoadMode.LimMode = .ObjMode) ∧
      (cbs = .ox_gen_callbacks ↔ LoadMode.LimMode = .GenMode) ∧
      (cbs = .ox_limited_callbacks ↔ LoadMode.LimMode = .LimMode) ∧
      (cbs = .ox_nomode_callbacks ↔ LoadMode.LimMode = .NoMode) :=
  ⟨rfl, load_dispatches_on_mode (fun _ _ _ => .ok .qtrue) (ox_default_options 64)
    [60, 97, 47, 62, 0] [.hash [(.sym .mode, .sym .limited)]]
    { ox_default_options 64 with mode := .LimMode } rfl⟩

theorem load_mode_frame (h : Hash) (o o1 : Options) (hm : load_mode h o = .ok o1) :
    o1 = { o with mode := o1.mode } := by
  unfold load_mode at hm
  split at hm <;> first | (cases hm; rfl) | cases hm

theorem load_effort_frame (h : Hash) (o o1 : Options) (hm : load_effort h o = .ok o1) :
    o1 = { o with effort := o1.effort } := by
  unfold load_effort at hm
  split at hm <;> first | (cases hm; rfl) | cases hm

theorem load_trace_frame (h : Hash) (o o1 : Options) (hm : load_trace h o = .ok o1) :
    o1 = { o with trace := o1.trace } := by
  unfold load_trace at hm
  split at hm
  · cases hm; rfl
  · split at hm
    · cases hm; rfl
    · cases hm
  · cases hm

theorem load_sym_keys_frame (h : Hash) (o : Options) :
    load_sym_keys h o = { o with sym_keys := (load_sym_keys h o).sym_keys } := by
  unfold load_sym_keys
  split <;> rfl

theorem load_options_frame (defaults : Options) (argv : List Arg) (options : Options)
    (hopt : load_options defaults argv = .ok options) :
    options = { defaults with
      mode := options.mode, effort := options.effort, trace := options.trace,
      sym_keys := options.sym_keys } := by
  unfold load_options at hopt
  split at hopt
  · rename_i h
    cases h1 : load_mode h defaults with
    | error e => simp [h1] at hopt
    | ok o1 =>
      cases h2 : load_effort h o1 with
      | error e => simp [h1, h2] at hopt
      | ok o2 =>
        cases h3 : load_trace h o2 with
        | error e => simp [h1, h2, h3] at hopt
        | ok o3 =>
          simp only [h1, h2, h3, Except.ok.injEq] at hopt
          have f1 := load_mode_frame h defaults o1 h1
          have f2 := load_effort_frame h o1 o2 h2
          have f3 := load_trace_frame h o2 o3 h3
          have f4 := load_sym_keys_frame h o3
          rw [← hopt, f4, f3, f2, f1]
  · cases hopt
    rfl

theorem load_options_no_hash (defaults : Options) (argv : List Arg)
    (hno : ∀ h, argv ≠ [.hash h]) : load_options defaults argv = .ok defaults := by
  unfold load_options
  split
  · rename_i h
    exact absurd rfl (hno h)
  · rfl

theorem parsed_options_load (ox_parse : Parser) (defaults : Options) (xml : List Nat)
    (argv : List Arg) (options : Options) (hopt : load_options defaults argv = .ok options) :
    parsed_options (load ox_parse defaults xml argv).events = [options] := by
  unfold load
  rw [hopt]
  cases hm : options.mode <;> simp [hm, parsed_options]

/-- C10: whenever the option merge of `load` succeeds, the options handed to
the parser have the encoding, indent, with_dtd, with_xml, with_instruct,
circular and xsd_date of the defaults, whatever the Hash holds; and when the
arguments are not a single Hash they are the defaults themselves. -/
theorem load_merge_keeps_formatting_fields (ox_parse : Parser) (defaults : Options)
    (xml : List Nat) (argv : List Arg) (options : Options)
    (hopt : load_options defaults argv = .ok options) :
    parsed_options (load ox_parse defaults xml argv).events = [options] ∧
    options.encoding = defaults.encoding ∧
    options.indent = defaults.indent ∧
    options.with_dtd = defaults.with_dtd ∧
    options.with_xml = defaults.with_xml ∧
    options.with_instruct = defaults.with_instruct ∧
    options.circular = defaults.circular ∧
    options.xsd_date = defaults.xsd_date ∧
    ((∀ h, argv ≠ [.hash h]) → options = defaults) := by
  have hframe := load_options_frame defaults argv options hopt
  refine ⟨parsed_options_load ox_parse defaults xml argv options hopt, ?_, ?_, ?_, ?_, ?_, ?_,
    ?_, ?_⟩
  · rw [hframe]
  · rw [hframe]
  · rw [hframe]
  · rw [hframe]
  · rw [hframe]
  · rw [hframe]
  · rw [hframe]
  · intro hno
    rw [load_options_no_hash defaults argv hno] at hopt
    cases hopt
    rfl

/-- C10, at the initial defaults and the options
`{mode: :object, indent: 9, with_xml: true}`. -/
theorem load_merge_keeps_formatting_fields_witness :
    load_options (ox_default_options 64)
        [.hash [(.sym .mode, .sym .object), (.sym .indent, .fixnum 9), (.sym .with_xml, .qtrue)]]
      = .ok { ox_default_options 64 with mode := .ObjMode } ∧
    parsed_options (load (fun _ _ _ => .ok .qtrue) (ox_default_options 64) [60, 97, 47, 62, 0]
        [.hash [(.sym .mode, .sym .object), (.sym .indent, .fixnum 9),
          (.sym .with_xml, .qtrue)]]).events
      = [{ ox_default_options 64 with mode := .ObjMode }] :=
  ⟨rfl, (load_merge_keeps_formatting_fields (fun _ _ _ => .ok .qtrue) (ox_default_options 64)
    [60, 97, 47, 62, 0]
    [.hash [(.sym .mode, .sym .object), (.sym .indent, .fixnum 9), (.sym .with_xml, .qtrue)]]
    { ox_default_options 64 with mode := .ObjMode } rfl).1⟩

/-! ### C8 and C9: what the loaders release and raise -/

theorem load_str_rejected_mode (ox_parse : Parser) (junk : Nat → Nat) (defaults : Options)
    (text : List Nat) (hbig : SMALL_XML < text.length + 1) :
    (load_str ox_parse junk defaults (.val (.str text))
        [.hash [(.sym .mode, .str [98, 111, 103, 117, 115])]]).events
      = [.alloc_n (text.length + 1)] ∧
    (load_str ox_parse junk defaults (.val (.str text))
        [.hash [(.sym .mode, .str [98, 111, 103, 117, 115])]]).result
      = .error ⟨.eArgError, ":mode must be :generic, :object, or :limited.\n"⟩ := by
  simp [load_str, load, load_options, load_mode, rb_hash_lookup, alloc_event, hbig]

theorem to_obj_parser_raises (e : RbErr) (junk : Nat → Nat) (defaults : Options)
    (text : List Nat) (hbig : SMALL_XML < text.length + 1) :
    Event.xfree ∉ (to_obj (fun _ _ _ => .error e) junk defaults (.val (.str text))).events ∧
    Event.alloc_n (text.length + 1)
      ∈ (to_obj (fun _ _ _ => .error e) junk defaults (.val (.str text))).events := by
  simp [to_obj, alloc_event, hbig]

theorem load_str_parser_returns (v : RVal) (junk : Nat → Nat) (defaults : Options)
    (text : List Nat) (hbig : SMALL_XML < text.length + 1) :
    Event.xfree ∈ (load_str (fun _ _ _ => .ok v) junk defaults (.val (.str text)) []).events := by
  have hres : (load (fun _ _ _ => .ok v) defaults
      (strcpy (fresh_block junk (text.length + 1)) text) []).result = .ok v := by
    unfold load
    simp only [load_options]
    cases defaults.mode <;> rfl
  simp only [load_str, hres]
  simp [free_events, hbig]

theorem replicate_is_big : SMALL_XML < (List.replicate 65536 60).length + 1 := by
  rw [List.length_replicate]
  decide

/-- C8, where the code departs from it: `load_str` on a text of 65536 bytes
with the options `{mode: "bogus"}` takes its buffer of 65537 bytes from the
heap, raises the argument error of `load`, and has not freed the buffer; the
same holds for `to_obj` on that text when the parser raises. With no options
and a parser that returns, the buffer is freed. -/
theorem heap_buffer_not_freed_on_error :
    (load_str (fun _ _ _ => .ok .qnil) (fun _ => 0) (ox_default_options 64)
        (.val (.str (List.replicate 65536 60)))
        [.hash [(.sym .mode, .str [98, 111, 103, 117, 115])]]).events
      = [.alloc_n ((List.replicate 65536 60).length + 1)] ∧
    (List.replicate 65536 60).length + 1 = 65537 ∧
    (load_str (fun _ _ _ => .ok .qnil) (fun _ => 0) (ox_default_options 64)
        (.val (.str (List.replicate 65536 60)))
        [.hash [(.sym .mode, .str [98, 111, 103, 117, 115])]]).result
      = .error ⟨.eArgError, ":mode must be :generic, :object, or :limited.\n"⟩ ∧
    Event.xfree ∉
      (to_obj (fun _ _ _ => .error ⟨.eSyntaxError, "invalid format"⟩) (fun _ => 0)
        (ox_default_options 64) (.val (.str (List.replicate 65536 60)))).events ∧
    Event.alloc_n ((List.replicate 65536 60).length + 1) ∈
      (to_obj (fun _ _ _ => .error ⟨.eSyntaxError, "invalid format"⟩) (fun _ => 0)
        (ox_default_options 64) (.val (.str (List.replicate 65536 60)))).events ∧
    Event.xfree ∈
      (load_str (fun _ _ _ => .ok .qnil) (fun _ => 0) (ox_default_options 64)
        (.val (.str (List.replicate 65536 60))) []).events :=
  ⟨(load_str_rejected_mode _ _ _ _ replicate_is_big).1,
    by rw [List.length_replicate],
    (load_str_rejected_mode _ _ _ _ replicate_is_big).2,
    (to_obj_parser_raises _ _ _ _ replicate_is_big).1,
    (to_obj_parser_raises _ _ _ _ replicate_is_big).2,
    load_str_parser_returns _ _ _ _ replicate_is_big⟩

theorem c_str_replicate_zero (n : Nat) : c_str (List.replicate n 0) = [] := by
  cases n <;> simp [c_str, List.replicate]

theorem get_def_opts_eq (d : Options) :
    get_def_opts d =
      [ (.sym .encoding, encoding_value d.encoding),
        (.sym .indent, .fixnum d.indent),
        (.sym .trace, .fixnum d.trace),
        (.sym .with_dtd, yes_no_value d.with_dtd),
        (.sym .with_xml, yes_no_value d.with_xml),
        (.sym .with_instructions, yes_no_value d.with_instruct),
        (.sym .circular, yes_no_value d.circular),
        (.sym .xsd_date, yes_no_value d.xsd_date),
        (.sym .symbolize_keys, yes_no_value d.sym_keys),
        (.sym .mode, mode_value d.mode),
        (.sym .effort, effort_value d.effort) ] := by
  unfold get_def_opts
  cases d.mode <;> cases d.effort <;>
    simp [rb_hash_aset, INT2FIX, mode_value, effort_value, encoding_value]

/-- C13: before any `set_def_opts` call the defaults have indent 2, trace 0,
effort StrictEffort, mode NoMode, an empty encoding, with_dtd, with_xml,
with_instruct, circular and xsd_date No and sym_keys Yes, and `get_def_opts`
renders them as indent 2, trace 0, effort :strict, mode nil, encoding nil, the
five formatting flags false and symbolize_keys true. -/
theorem initial_defaults_baseline (encSize : Nat) :
    (ox_default_options encSize).indent = 2 ∧
    (ox_default_options encSize).trace = 0 ∧
    (ox_default_options encSize).effort = .StrictEffort ∧
    (ox_default_options encSize).mode = .NoMode ∧
    strlen (ox_default_options encSize).encoding = 0 ∧
    (ox_default_options encSize).with_dtd = .No ∧
    (ox_default_options encSize).with_xml = .No ∧
    (ox_default_options encSize).with_instruct = .No ∧
    (ox_default_options encSize).circular = .No ∧
    (ox_default_options encSize).xsd_date = .No ∧
    (ox_default_options encSize).sym_keys = .Yes ∧
    get_def_opts (ox_default_options encSize) =
      [ (.sym .encoding, .qnil), (.sym .indent, .fixnum 2), (.sym .trace, .fixnum 0),
        (.sym .with_dtd, .qfalse), (.sym .with_xml, .qfalse),
        (.sym .with_instructions, .qfalse), (.sym .circular, .qfalse),
        (.sym .xsd_date, .qfalse), (.sym .symbolize_keys, .qtrue), (.sym .mode, .qnil),
        (.sym .effort, .sym .strict) ] := by
  have hlen : strlen (ox_default_options encSize).encoding = 0 := by
    simp [strlen, ox_default_options, c_str_replicate_zero]
  refine ⟨rfl, rfl, rfl, rfl, hlen, rfl, rfl, rfl, rfl, rfl, rfl, ?_⟩
  rw [get_def_opts_eq]
  simp [encoding_value, strlen, c_str_replicate_zero, ox_default_options, yes_no_value,
    mode_value, effort_value]

/-! ### C15: `set_def_opts` on what `get_def_opts` returns -/

theorem lookup_cons_eq (k v : RVal) (es : Hash) : List.lookup k ((k, v) :: es) = some v := by
  simp [List.lookup]

theorem lookup_cons_ne (k a v : RVal) (es : Hash) (hne : k ≠ a) :
    List.lookup k ((a, v) :: es) = List.lookup k es := by
  have hb : (k == a) = false := by simpa using hne
  simp [List.lookup, hb]

theorem get_def_opts_values (d : Options) :
    OptKey.value .encoding (get_def_opts d) = encoding_value d.encoding ∧
    OptKey.value .indent (get_def_opts d) = .fixnum d.indent ∧
    OptKey.value .trace (get_def_opts d) = .fixnum d.trace ∧
    OptKey.value .mode (get_def_opts d) = mode_value d.mode ∧
    OptKey.value .effort (get_def_opts d) = effort_value d.effort ∧
    ∀ a : YnAttr, OptKey.value (.yn a) (get_def_opts d) = yes_no_value (a.load d) := by
  rw [get_def_opts_eq]
  refine ⟨?_, ?_, ?_, ?_, ?_, ?_⟩ <;>
    first
      | (intro a; cases a <;>
          simp [OptKey.value, OptKey.sym, YnAttr.sym, YnAttr.load, rb_hash_aref, lookup_cons_eq,
            lookup_cons_ne])
      | simp [OptKey.value, OptKey.sym, rb_hash_aref, lookup_cons_eq, lookup_cons_ne]

theorem mode_after_value (m : LoadMode) : mode_after (mode_value m) = m := by
  cases m <;> rfl

theorem effort_after_value (e : Effort) : effort_after (effort_value e) = e := by
  cases e <;> rfl

theorem yes_no_after_value (y : YesNo) : yes_no_after (yes_no_value y) = y := by
  cases y <;> rfl

theorem encoding_shape_last (enc : List Nat) (hs : encoding_shape enc) (hne : enc ≠ []) :
    ∃ body, enc = body ++ [0] := by
  rcases hs with h | ⟨_, h⟩ | ⟨s, k, _, h⟩
  · exact absurd h hne
  · exact List.getLast?_eq_some_iff.mp h
  · exact ⟨s ++ List.replicate k 0, h⟩

theorem encoding_shape_initial (n : Nat) : encoding_shape (List.replicate n 0) := by
  cases n with
  | zero => exact Or.inl rfl
  | succ k => exact Or.inr (Or.inr ⟨[], k, by simp, by simp [List.replicate_succ']⟩)

theorem encoding_shape_set (enc : List Nat) (hs : encoding_shape enc) :
    encoding_shape (enc.set 0 0) := by
  cases enc with
  | nil => exact Or.inl rfl
  | cons b t =>
    obtain ⟨body, hb⟩ := encoding_shape_last (b :: t) hs (by simp)
    refine Or.inr (Or.inl ⟨by simp, ?_⟩)
    cases body with
    | nil =>
      simp only [List.nil_append, List.cons.injEq] at hb
      simp [hb.2]
    | cons c body =>
      simp only [List.cons_append, List.cons.injEq] at hb
      rw [List.set_cons_zero, hb.2]
      exact List.getLast?_concat (0 :: body)

theorem encoding_shape_strncpy (dst src : List Nat) (hs : encoding_shape dst) :
    encoding_shape (strncpy dst src (dst.length - 1)) := by
  by_cases hne : dst = []
  · subst hne
    left
    simp [strncpy]
  · obtain ⟨body, hb⟩ := encoding_shape_last dst hs hne
    subst hb
    refine Or.inr (Or.inr ⟨(c_str src).take body.length,
      body.length - ((c_str src).take body.length).length, ?_, ?_⟩)
    · intro hmem
      have hz := List.mem_takeWhile_imp (List.mem_of_mem_take hmem)
      simp at hz
    · simp [strncpy]

theorem c_str_text_then_nul (s rest : List Nat) (hnul : 0 ∉ s) : c_str (s ++ 0 :: rest) = s := by
  induction s with
  | nil => simp [c_str]
  | cons b t ih =>
    have hb : b ≠ 0 := fun e => hnul (by simp [e])
    have ht : 0 ∉ t := fun hm => hnul (List.mem_cons_of_mem b hm)
    have := ih ht
    simp [c_str] at this
    simp [c_str, List.takeWhile_cons, hb, this]

theorem strncpy_same_text (s : List Nat) (k : Nat) (hnul : 0 ∉ s) :
    strncpy (s ++ List.replicate k 0 ++ [0]) s ((s ++ List.replicate k 0 ++ [0]).length - 1)
      = s ++ List.replicate k 0 ++ [0] := by
  have hlen : (s ++ List.replicate k 0 ++ [0]).length - 1 = s.length + k := by simp
  have hlen2 : (s ++ List.replicate k 0).length = s.length + k := by simp
  simp only [strncpy]
  rw [c_str_of_no_nul s hnul, hlen, List.take_of_length_le (Nat.le_add_right _ _),
    Nat.add_sub_cancel_left, List.drop_left' hlen2]

theorem encoding_round_trip (enc : List Nat) (hs : encoding_shape enc) :
    encoding_after (encoding_value enc) enc = enc := by
  rcases hs with h | ⟨hhead, _⟩ | ⟨s, k, hnul, h⟩
  · subst h
    simp [encoding_value, strlen, c_str, encoding_after]
  · cases enc with
    | nil => simp [encoding_value, strlen, c_str, encoding_after]
    | cons b t =>
      simp only [List.head?_cons, Option.some.injEq] at hhead
      subst hhead
      simp [encoding_value, strlen, c_str, encoding_after]
  · have hc : c_str enc = s := by
      rw [h]
      cases k with
      | zero => simpa using c_str_text_then_nul s [] hnul
      | succ j =>
        have := c_str_text_then_nul s (List.replicate j 0 ++ [0]) hnul
        simpa [List.replicate_succ] using this
    cases s with
    | nil =>
      have h0 : enc = 0 :: (List.replicate k 0 ++ [0]).tail := by
        rw [h]
        cases k <;> simp [List.replicate_succ]
      rw [h0]
      simp [encoding_value, strlen, c_str, encoding_after]
    | cons b t =>
      have htake : enc.take (strlen enc) = b :: t := by
        rw [strlen, hc, h]
        simp
      have hpos : ¬ 0 = strlen enc := by
        rw [strlen, hc]
        simp
      simp only [encoding_value, if_neg hpos, htake, encoding_after]
      rw [h]
      exact strncpy_same_text (b :: t) k hnul

theorem encoding_shape_after (v : RVal) (enc : List Nat) (hs : encoding_shape enc) :
    encoding_shape (encoding_after v enc) := by
  unfold encoding_after
  split
  · exact encoding_shape_strncpy enc _ hs
  · exact encoding_shape_set enc hs

theorem set_def_opts_encoding_cases (d : Options) (opts : Arg) :
    (set_def_opts d opts).1.encoding = d.encoding ∨
      ∃ v, (set_def_opts d opts).1.encoding = encoding_after v d.encoding := by
  cases opts with
  | val v => exact Or.inl rfl
  | hash h =>
    rcases first_rejected h set_def_opts_keys with hall | ⟨pre, k, post, hsplit, hpre, hk⟩
    · rw [set_def_opts_accepted d h hall]
      refine Or.inr ⟨OptKey.value .encoding h, ?_⟩
      simp [assign_keys, set_def_opts_keys, OptKey.assign, YnAttr.store]
    · rw [set_def_opts_rejected d h pre k post hsplit hpre hk]
      cases pre with
      | nil => exact Or.inl rfl
      | cons j pre1 =>
        have hnd := set_def_opts_keys_nodup
        rw [hsplit] at hnd
        have hj : j = .encoding := by
          have := congrArg List.head? hsplit
          simpa [set_def_opts_keys] using this.symm
        subst hj
        have hnot : OptKey.encoding ∉ pre1 := by
          intro hm
          have := (List.nodup_cons.mp hnd).1
          exact this (List.mem_append_left _ hm)
        have hfield := assign_keys_other_field h .encoding pre1
          (OptKey.assign .encoding (OptKey.value .encoding h) d) hnot
        refine Or.inr ⟨OptKey.value .encoding h, ?_⟩
        simpa [OptKey.field, OptKey.assign, assign_keys] using hfield

theorem set_def_opts_keeps_shape (d : Options) (opts : Arg) (hs : encoding_shape d.encoding) :
    encoding_shape (set_def_opts d opts).1.encoding := by
  rcases set_def_opts_encoding_cases d opts with h | ⟨v, h⟩
  · rw [h]; exact hs
  · rw [h]; exact encoding_shape_after v d.encoding hs

theorem foldl_keeps_shape (calls : List Arg) (d : Options) (hs : encoding_shape d.encoding) :
    encoding_shape (calls.foldl (fun d opts => (set_def_opts d opts).1) d).encoding := by
  induction calls generalizing d with
  | nil => exact hs
  | cons c calls ih => exact ih _ (set_def_opts_keeps_shape d c hs)

theorem defaults_after_shape (encSize : Nat) (calls : List Arg) :
    encoding_shape (defaults_after encSize calls).encoding :=
  foldl_keeps_shape calls _ (encoding_shape_initial encSize)

theorem int_after_fits (v : RVal) (old : Int) (hfit : fits_int old = true) :
    fits_int (int_after v old) = true := by
  unfold int_after
  split
  · split
    · assumption
    · exact hfit
  · exact hfit

theorem assign_keeps_fits (k : OptKey) (v : RVal) (o : Options)
    (hfit : fits_int o.indent = true ∧ fits_int o.trace = true) :
    fits_int (k.assign v o).indent = true ∧ fits_int (k.assign v o).trace = true := by
  rcases k with _ | _ | _ | _ | _ | a
  · exact hfit
  · exact ⟨int_after_fits v o.indent hfit.1, hfit.2⟩
  · exact ⟨hfit.1, int_after_fits v o.trace hfit.2⟩
  · exact hfit
  · exact hfit
  · cases a <;> exact hfit

theorem assign_keys_keeps_fits (h : Hash) (ks : List OptKey) (o : Options)
    (hfit : fits_int o.indent = true ∧ fits_int o.trace = true) :
    fits_int (assign_keys h ks o).indent = true ∧ fits_int (assign_keys h ks o).trace = true := by
  induction ks generalizing o with
  | nil => exact hfit
  | cons k ks ih => exact ih _ (assign_keeps_fits k _ o hfit)

theorem set_def_opts_keeps_fits (d : Options) (opts : Arg)
    (hfit : fits_int d.indent = true ∧ fits_int d.trace = true) :
    fits_int (set_def_opts d opts).1.indent = true ∧
      fits_int (set_def_opts d opts).1.trace = true := by
  cases opts with
  | val v => exact hfit
  | hash h =>
    rcases first_rejected h set_def_opts_keys with hall | ⟨pre, k, post, hsplit, hpre, hk⟩
    · rw [set_def_opts_accepted d h hall]
      exact assign_keys_keeps_fits h _ d hfit
    · rw [set_def_opts_rejected d h pre k post hsplit hpre hk]
      exact assign_keys_keeps_fits h _ d hfit

theorem foldl_keeps_fits (calls : List Arg) (d : Options)
    (hfit : fits_int d.indent = true ∧ fits_int d.trace = true) :
    fits_int (calls.foldl (fun d opts => (set_def_opts d opts).1) d).indent = true ∧
      fits_int (calls.foldl (fun d opts => (set_def_opts d opts).1) d).trace = true := by
  induction calls generalizing d with
  | nil => exact hfit
  | cons c calls ih => exact ih _ (set_def_opts_keeps_fits d c hfit)

theorem defaults_after_fits (encSize : Nat) (calls : List Arg) :
    fits_int (defaults_after encSize calls).indent = true ∧
      fits_int (defaults_after encSize calls).trace = true :=
  foldl_keeps_fits calls _
    ⟨show fits_int 2 = true by decide, show fits_int 0 = true by decide⟩

theorem get_def_opts_accepted (d : Options)
    (hfit : fits_int d.indent = true ∧ fits_int d.trace = true) :
    ∀ k ∈ set_def_opts_keys, k.accepts (k.value (get_def_opts d)) = true := by
  obtain ⟨h1, h2, h3, h4, h5, h6⟩ := get_def_opts_values d
  intro k hk
  simp only [set_def_opts_keys, List.mem_cons, List.mem_singleton, List.not_mem_nil,
    or_false] at hk
  rcases hk with rfl | rfl | rfl | rfl | rfl | rfl | rfl | rfl | rfl | rfl | rfl
  · rw [h1]
    unfold encoding_value
    split <;> rfl
  · rw [h2]; exact hfit.1
  · rw [h3]; exact hfit.2
  · rw [h4]; cases d.mode <;> decide
  · rw [h5]; cases d.effort <;> decide
  all_goals
    rw [h6]
    generalize YnAttr.load _ d = y
    cases y <;> decide

theorem round_trip_of_shape (d : Options) (hs : encoding_shape d.encoding)
    (hfit : fits_int d.indent = true ∧ fits_int d.trace = true) :
    set_def_opts d (.hash (get_def_opts d)) = (d, .ok .qnil) := by
  rw [set_def_opts_accepted d _ (get_def_opts_accepted d hfit)]
  obtain ⟨h1, h2, h3, h4, h5, h6⟩ := get_def_opts_values d
  have e1 := h6 .with_xml
  have e2 := h6 .with_dtd
  have e3 := h6 .with_instruct
  have e4 := h6 .xsd_date
  have e5 := h6 .circular
  have e6 := h6 .sym_keys
  simp only [assign_keys, set_def_opts_keys, List.foldl_cons, List.foldl_nil, OptKey.assign,
    h1, h2, h3, h4, h5, e1, e2, e3, e4, e5, e6, YnAttr.store, YnAttr.load,
    encoding_round_trip d.encoding hs, mode_after_value, effort_after_value,
    yes_no_after_value, int_after, hfit.1, hfit.2, if_true]

/-- C15: for the defaults `d` reached from the initial defaults by any sequence
of `set_def_opts` calls, `set_def_opts` on the Hash that `get_def_opts` returns
succeeds and leaves the defaults equal to `d` in every field, so that
`get_def_opts` afterwards returns the same Hash. -/
theorem set_def_opts_get_def_opts_round_trip (encSize : Nat) (calls : List Arg) :
    set_def_opts (defaults_after encSize calls)
        (.hash (get_def_opts (defaults_after encSize calls)))
      = (defaults_after encSize calls, .ok .qnil) ∧
    get_def_opts
        (set_def_opts (defaults_after encSize calls)
          (.hash (get_def_opts (defaults_after encSize calls)))).1
      = get_def_opts (defaults_after encSize calls) := by
  have h := round_trip_of_shape _ (defaults_after_shape encSize calls)
    (defaults_after_fits encSize calls)
  exact ⟨h, by rw [h]⟩

/-! ### C14: the number of steps of `_ox_raise_error` -/

theorem col_loop_offset_add_steps (xml : List Nat) (p col : Nat) :
    (raise_error_col_loop xml p col).1 + raise_error_col_steps xml p = p := by
  induction p generalizing col with
  | zero => rfl
  | succ n ih =>
    unfold raise_error_col_loop raise_error_col_steps
    by_cases hb : xml.getD (n + 1) 0 ≠ 10
    · rw [if_pos hb, if_pos hb]
      have := ih (col + 1)
      omega
    · rw [if_neg hb, if_neg hb]

theorem line_steps_eq (xml : List Nat) (current : Nat) :
    raise_error_line_steps xml current = current := by
  induction current with
  | zero => rfl
  | succ n ih => simp [raise_error_line_steps, ih]

theorem col_steps_eq_distance (xml : List Nat) (p : Nat) :
    raise_error_col_steps xml p = newline_distance xml p := by
  induction p with
  | zero => rfl
  | succ n ih =>
    unfold raise_error_col_steps newline_distance
    by_cases hb : xml.getD (n + 1) 0 = 10
    · rw [if_neg (not_not.mpr hb), if_pos hb]
    · rw [if_pos hb, if_neg hb, ih]

theorem newline_distance_on_newline (xml : List Nat) (p : Nat)
    (hb : xml.getD (p + 1) 0 = 10) : newline_distance xml (p + 1) = 0 := by
  unfold newline_distance
  rw [if_pos hb]

/-- C14 (amended): only the first loop of `_ox_raise_error` is bounded by the
distance to the last newline, taking exactly that many steps; the second loop
goes on to the start of the buffer, so for every buffer and every cursor at
offset `p` the two loops together take exactly `p` backward steps. -/
theorem raise_error_steps_eq_offset (xml : List Nat) (p : Nat) :
    raise_error_col_steps xml p = newline_distance xml p ∧ raise_error_steps xml p = p := by
  refine ⟨col_steps_eq_distance xml p, ?_⟩
  unfold raise_error_steps
  rw [line_steps_eq]
  have := col_loop_offset_add_steps xml p 1
  omega

/-- C14, as stated, fails: no constant bounds the steps by the distance to the
last newline. In a buffer of `C + 2` newlines the cursor at offset `C + 1` sits
on a newline, at distance 0, and the loops take `C + 1` steps; for 5 newlines
and the cursor at offset 4 they take 4 steps. -/
theorem raise_error_steps_not_bounded_by_distance :
    (¬ ∃ C, ∀ xml p, raise_error_steps xml p ≤ C + newline_distance xml p) ∧
    raise_error_steps [10, 10, 10, 10, 10] 4 = 4 ∧
    newline_distance [10, 10, 10, 10, 10] 4 = 0 := by
  refine ⟨?_, by decide, by decide⟩
  rintro ⟨C, hC⟩
  have h := hC (List.replicate (C + 2) 10) (C + 1)
  have hsteps : raise_error_steps (List.replicate (C + 2) 10) (C + 1) = C + 1 := by
    unfold raise_error_steps
    rw [line_steps_eq]
    have := col_loop_offset_add_steps (List.replicate (C + 2) 10) (C + 1) 1
    omega
  have hbyte : (List.replicate (C + 2) 10).getD (C + 1) 0 = 10 := by
    simp [List.getD_eq_getElem?_getD, List.getElem?_replicate]
  rw [hsteps, newline_distance_on_newline _ _ hbyte] at h
  omega

/-! ### C12: the tier chosen for a text and for a file -/

theorem load_str_alloc_mem (ox_parse : Parser) (junk : Nat → Nat) (defaults : Options)
    (text : List Nat) (rest : List Arg) :
    alloc_event (decide (SMALL_XML < text.length + 1)) (text.length + 1)
      ∈ (load_str ox_parse junk defaults (.val (.str text)) rest).events := by
  simp only [load_str]
  split <;> simp

theorem load_file_alloc_mem (ox_parse : Parser) (fopen : Fopen) (junk : Nat → Nat)
    (defaults : Options) (path : List Nat) (rest : List Arg) (f : CFile)
    (hf : fopen (c_str path) = .ok f) :
    alloc_event (decide (SMALL_XML < f.size)) (f.size + 1)
      ∈ (load_file ox_parse fopen junk defaults (.val (.str path)) rest).events := by
  simp only [load_file, hf]
  split
  · simp
  · split <;> simp

/-- C12, where the code departs from it: for 65536 bytes the copy size is
65537, above `SMALL_XML`; `load_str` takes the 65537 bytes from the heap, and
`load_file`, which compares the file length and not the copy size, takes the
65537 bytes from the stack. -/
theorem load_file_tier_differs_at_threshold :
    Event.alloc_n ((List.replicate 65536 60).length + 1) ∈
      (load_str (fun _ _ _ => .ok .qnil) (fun _ => 0) (ox_default_options 64)
        (.val (.str (List.replicate 65536 60))) []).events ∧
    (List.replicate 65536 60).length + 1 = 65537 ∧
    SMALL_XML < 65537 ∧
    Event.alloca_n 65537 ∈
      (load_file (fun _ _ _ => .ok .qnil) (fun _ => .ok ⟨65536, List.replicate 65536 60⟩)
        (fun _ => 0) (ox_default_options 64) (.val (.str [120])) []).events := by
  refine ⟨?_, by rw [List.length_replicate], by decide, ?_⟩
  · have h := load_str_alloc_mem (fun _ _ _ => .ok .qnil) (fun _ => 0) (ox_default_options 64)
      (List.replicate 65536 60) []
    rw [decide_eq_true replicate_is_big] at h
    exact h
  · have h := load_file_alloc_mem (fun _ _ _ => .ok .qnil)
      (fun _ => .ok ⟨65536, List.replicate 65536 60⟩) (fun _ => 0) (ox_default_options 64)
      [120] [] ⟨65536, List.replicate 65536 60⟩ rfl
    have hsmall : decide (SMALL_XML < 65536) = false := by decide
    simp only [hsmall] at h
    exact h

/-! ### C11: the keys `parse_dump_options` reads -/

theorem andThen_keeps_mode_sym_keys (s t : Step)
    (hs : ∀ c, (s c).1.mode = c.mode ∧ (s c).1.sym_keys = c.sym_keys)
    (ht : ∀ c, (t c).1.mode = c.mode ∧ (t c).1.sym_keys = c.sym_keys) :
    ∀ c, ((s.andThen t) c).1.mode = c.mode ∧ ((s.andThen t) c).1.sym_keys = c.sym_keys := by
  intro c
  have h1 := hs c
  unfold Step.andThen
  cases hsc : s c with
  | mk c1 r =>
    rw [hsc] at h1
    cases r with
    | error e => exact h1
    | ok u =>
      have h2 := ht c1
      exact ⟨h2.1.trans h1.1, h2.2.trans h1.2⟩

theorem store_keeps_mode_sym_keys (a : YnAttr) (v : YesNo) (c : Options)
    (ha : a ≠ .sym_keys) : (a.store v c).mode = c.mode ∧ (a.store v c).sym_keys = c.sym_keys := by
  cases a <;> simp_all [YnAttr.store]

theorem dump_loop_keeps_mode_sym_keys (h : Hash) (l : List (Sym × YnAttr))
    (hl : ∀ e ∈ l, e.2 ≠ .sym_keys) :
    ∀ c, (parse_dump_options_loop h l c).1.mode = c.mode ∧
      (parse_dump_options_loop h l c).1.sym_keys = c.sym_keys := by
  induction l with
  | nil => intro c; exact ⟨rfl, rfl⟩
  | cons e l ih =>
    obtain ⟨s, a⟩ := e
    have ha : a ≠ .sym_keys := hl (s, a) (List.mem_cons_self _ _)
    have ih1 := ih (fun e he => hl e (List.mem_cons_of_mem _ he))
    intro c
    unfold parse_dump_options_loop
    split
    · exact ih1 c
    · have h1 := ih1 (a.store .Yes c)
      have h2 := store_keeps_mode_sym_keys a .Yes c ha
      exact ⟨h1.1.trans h2.1, h1.2.trans h2.2⟩
    · have h1 := ih1 (a.store .No c)
      have h2 := store_keeps_mode_sym_keys a .No c ha
      exact ⟨h1.1.trans h2.1, h1.2.trans h2.2⟩
    · exact ⟨rfl, rfl⟩

theorem parse_dump_options_keeps_mode_sym_keys (ropts : Arg) :
    ∀ c, (parse_dump_options ropts c).1.mode = c.mode ∧
      (parse_dump_options ropts c).1.sym_keys = c.sym_keys := by
  cases ropts with
  | val v => intro c; exact ⟨rfl, rfl⟩
  | hash h =>
    unfold parse_dump_options
    refine andThen_keeps_mode_sym_keys _ _ ?_ (andThen_keeps_mode_sym_keys _ _ ?_
      (andThen_keeps_mode_sym_keys _ _ ?_ (andThen_keeps_mode_sym_keys _ _ ?_
        (dump_loop_keeps_mode_sym_keys h _ (by decide)))))
    · intro c; unfold parse_dump_options_indent; split <;> (try split) <;> exact ⟨rfl, rfl⟩
    · intro c; unfold parse_dump_options_trace; split <;> (try split) <;> exact ⟨rfl, rfl⟩
    · intro c; unfold parse_dump_options_encoding; split <;> exact ⟨rfl, rfl⟩
    · intro c; unfold parse_dump_options_effort; split <;> exact ⟨rfl, rfl⟩

theorem lookup_none_nil (h : Hash) (k : RVal) (hk : List.lookup k h = none) :
    rb_hash_lookup h k = .qnil := by
  simp [rb_hash_lookup, hk]

theorem dump_loop_same_values (h1 h2 : Hash) (l : List (Sym × YnAttr))
    (hsame : ∀ e ∈ l, rb_hash_lookup h1 (.sym e.1) = rb_hash_lookup h2 (.sym e.1)) :
    parse_dump_options_loop h1 l = parse_dump_options_loop h2 l := by
  induction l with
  | nil => rfl
  | cons e l ih =>
    obtain ⟨s, a⟩ := e
    have he : rb_hash_lookup h1 (.sym s) = rb_hash_lookup h2 (.sym s) :=
      hsame (s, a) (List.mem_cons_self _ _)
    have ih1 := ih (fun e hm => hsame e (List.mem_cons_of_mem _ hm))
    funext c
    simp only [parse_dump_options_loop, he, ih1]

theorem dump_loop_no_keys (h : Hash) (l : List (Sym × YnAttr))
    (hnil : ∀ e ∈ l, rb_hash_lookup h (.sym e.1) = .qnil) :
    parse_dump_options_loop h l = fun c => (c, .ok ()) := by
  induction l with
  | nil => rfl
  | cons e l ih =>
    obtain ⟨s, a⟩ := e
    have he : rb_hash_lookup h (.sym s) = .qnil := hnil (s, a) (List.mem_cons_self _ _)
    have ih1 := ih (fun e hm => hnil e (List.mem_cons_of_mem _ hm))
    funext c
    simp only [parse_dump_options_loop, he, ih1]

theorem done_andThen (t : Step) : Step.andThen (fun c => (c, .ok ())) t = t := rfl

theorem parse_dump_options_same_values (base : Options) (h1 h2 : Hash)
    (hsame : ∀ s ∈ parse_dump_options_keys,
      rb_hash_lookup h1 (.sym s) = rb_hash_lookup h2 (.sym s)) :
    parse_dump_options (.hash h1) base = parse_dump_options (.hash h2) base := by
  have e1 : parse_dump_options_indent h1 = parse_dump_options_indent h2 := by
    funext c
    simp only [parse_dump_options_indent, hsame .indent (by decide)]
  have e2 : parse_dump_options_trace h1 = parse_dump_options_trace h2 := by
    funext c
    simp only [parse_dump_options_trace, hsame .trace (by decide)]
  have e3 : parse_dump_options_encoding h1 = parse_dump_options_encoding h2 := by
    funext c
    simp only [parse_dump_options_encoding, hsame .encoding (by decide)]
  have e4 : parse_dump_options_effort h1 = parse_dump_options_effort h2 := by
    funext c
    simp only [parse_dump_options_effort, hsame .effort (by decide)]
  have e5 := dump_loop_same_values h1 h2 parse_dump_options_ynos (by
    intro e he
    simp only [parse_dump_options_ynos, List.mem_cons, List.mem_singleton, List.not_mem_nil,
      or_false] at he
    rcases he with rfl | rfl | rfl | rfl | rfl <;> exact hsame _ (by decide))
  simp only [parse_dump_options, e1, e2, e3, e4, e5]

theorem parse_dump_options_no_keys (base : Options) (h : Hash)
    (hnone : ∀ s ∈ parse_dump_options_keys, List.lookup (RVal.sym s) h = none) :
    parse_dump_options (.hash h) base = (base, .ok ()) := by
  have e1 : parse_dump_options_indent h = fun c => (c, .ok ()) := by
    funext c
    simp only [parse_dump_options_indent, lookup_none_nil h _ (hnone .indent (by decide))]
  have e2 : parse_dump_options_trace h = fun c => (c, .ok ()) := by
    funext c
    simp only [parse_dump_options_trace, lookup_none_nil h _ (hnone .trace (by decide))]
  have e3 : parse_dump_options_encoding h = fun c => (c, .ok ()) := by
    funext c
    simp only [parse_dump_options_encoding, lookup_none_nil h _ (hnone .encoding (by decide))]
  have e4 : parse_dump_options_effort h = fun c => (c, .ok ()) := by
    funext c
    simp only [parse_dump_options_effort, lookup_none_nil h _ (hnone .effort (by decide))]
  have e5 := dump_loop_no_keys h parse_dump_options_ynos (by
    intro e he
    simp only [parse_dump_options_ynos, List.mem_cons, List.mem_singleton, List.not_mem_nil,
      or_false] at he
    rcases he with rfl | rfl | rfl | rfl | rfl <;>
      exact lookup_none_nil h _ (hnone _ (by decide)))
  simp only [parse_dump_options, e1, e2, e3, e4, e5, done_andThen]

/-- C11: for every base record and every overrides Hash, what
`parse_dump_options` does is fixed by the values the Hash has for indent, trace,
encoding, effort, with_xml, with_dtd, with_instructions, xsd_date and circular;
with a Hash that has none of these keys it returns without raising and leaves
the record equal to the base in every field, which `dump` then hands to the
writer; and it never changes mode or sym_keys. -/
theorem parse_dump_options_reads_nine_keys (base : Options) (h h2 : Hash) :
    ((∀ s ∈ parse_dump_options_keys, rb_hash_lookup h (.sym s) = rb_hash_lookup h2 (.sym s)) →
      parse_dump_options (.hash h) base = parse_dump_options (.hash h2) base) ∧
    ((∀ s ∈ parse_dump_options_keys, List.lookup (RVal.sym s) h = none) →
      parse_dump_options (.hash h) base = (base, .ok ()) ∧
      ∀ (w : Writer) (enc : Bool) (obj : Arg),
        (dump w enc base obj [.hash h]).written = [base]) ∧
    (parse_dump_options (.hash h) base).1.mode = base.mode ∧
    (parse_dump_options (.hash h) base).1.sym_keys = base.sym_keys := by
  refine ⟨parse_dump_options_same_values base h h2, fun hnone => ?_,
    (parse_dump_options_keeps_mode_sym_keys (.hash h) base).1,
    (parse_dump_options_keeps_mode_sym_keys (.hash h) base).2⟩
  have hp := parse_dump_options_no_keys base h hnone
  refine ⟨hp, fun w enc obj => ?_⟩
  simp only [dump, hp]
  split <;> rfl

/-- C11, at the initial defaults and the Hash
`{mode: :object, symbolize_keys: false, other: 1}`. -/
theorem parse_dump_options_reads_nine_keys_witness :
    (∀ s ∈ parse_dump_options_keys,
      List.lookup (RVal.sym s)
        [(RVal.sym .mode, RVal.sym .object), (.sym .symbolize_keys, .qfalse),
          (.sym (.other 7), .fixnum 1)] = none) ∧
    parse_dump_options
        (.hash [(.sym .mode, .sym .object), (.sym .symbolize_keys, .qfalse),
          (.sym (.other 7), .fixnum 1)]) (ox_default_options 64)
      = (ox_default_options 64, .ok ()) :=
  ⟨by decide,
    ((parse_dump_options_reads_nine_keys (ox_default_options 64)
      [(.sym .mode, .sym .object), (.sym .symbolize_keys, .qfalse), (.sym (.other 7), .fixnum 1)]
      []).2.1 (by decide)).1⟩

end Ox
